import Mathlib

/-!
Verification of the receipt-scanning extraction pipeline
(ReceiptsService: extractJsonFromLLMResponse, sanitizeJsonString,
validateAndCleanData, extractDataWithRegex, getPositionFromLineCol,
parseDate) as a shallow embedding in Lean.

Modelling conventions:
- JavaScript runtime values are modelled by the inductive `JsVal`;
  JS numbers are `Option JsRat` (an exact normalized fraction) with
  `none` standing for NaN (the pipeline
  never produces Infinity from the inputs considered here, and the
  lenient parser model does not accept the Infinity/NaN literals).
- `JSON.parse` is modelled by `jsonParse` (strict JSON grammar),
  `JSON5.parse` by `json5Parse` (superset grammar: unquoted identifier
  keys, single-quoted strings, trailing commas, leading plus / bare dot
  in numbers).  Comment syntax and hex literals of JSON5 are not
  modelled; no input considered here contains them.
- The platform date parser (`new Date(string)` / `new Date(value)`) is
  an oracle parameter `native` of the date-resolving functions, and the
  line/column carried by a JSON5 error message is an oracle parameter
  `errLoc` of the extraction pipeline; the theorems quantify over them.
- Regular-expression operations of the source are embedded as explicit
  scanning functions over `List Char` with JS semantics (leftmost match,
  global scan resuming after each replacement, greedy/lazy as in the
  original pattern); each is named after the source pattern it embeds.
-/

/-- JS whitespace as matched by the s-class of the source regexes
(ASCII part; the exotic unicode space characters never occur in the
inputs considered here). -/
def jsWsChar (c : Char) : Bool :=
  c = ' ' || c = '\t' || c = '\n' || c = '\r' || c = '\x0b' || c = '\x0c'

def isDigitChar (c : Char) : Bool :=
  '0' ≤ c && c ≤ '9'

/-- Word characters of the source character class [a-zA-Z0-9_]. -/
def isWordChar (c : Char) : Bool :=
  ('a' ≤ c && c ≤ 'z') || ('A' ≤ c && c ≤ 'Z') || isDigitChar c || c = '_'

def isAlphaChar (c : Char) : Bool :=
  ('a' ≤ c && c ≤ 'z') || ('A' ≤ c && c ≤ 'Z')

/-- Exact JS numbers as normalized fractions (numerator, positive
denominator, reduced by construction through `mkJsRat`).  Receipt
values are decimal literals, which are exact here; binary floating
point rounding is not modelled and is never observable in the
scenarios considered. -/
structure JsRat where
  num : Int
  den : Nat
deriving DecidableEq

/-- Build a normalized fraction (gcd-reduced; a zero denominator never
arises from the parsing code, which only divides by powers of ten). -/
def mkJsRat (n : Int) (d : Nat) : JsRat :=
  if d = 0 then ⟨0, 1⟩
  else
    let g := Nat.gcd n.natAbs d
    ⟨n / (g : Int), d / g⟩

instance (n : Nat) : OfNat JsRat n := ⟨⟨n, 1⟩⟩

instance : Neg JsRat := ⟨fun q => ⟨-q.num, q.den⟩⟩

instance : LE JsRat := ⟨fun a b => a.num * (b.den : Int) ≤ b.num * (a.den : Int)⟩

instance (a b : JsRat) : Decidable (a ≤ b) :=
  inferInstanceAs (Decidable (a.num * (b.den : Int) ≤ b.num * (a.den : Int)))

/-- The value sign * (intDigits . fracDigits) * 10 ^ ex as an exact
fraction (shared by parseFloat and the number productions of both
parsers). -/
def ratFromParts (sgn : Int) (ints fracs : List Char) (ex : Int) : JsRat :=
  let iv : Int := (ints.foldl (fun acc c => acc * 10 + (c.toNat - 48)) 0 : Nat)
  let fv : Int := (fracs.foldl (fun acc c => acc * 10 + (c.toNat - 48)) 0 : Nat)
  let base : Int := sgn * (iv * (10 : Int) ^ fracs.length + fv)
  if 0 ≤ ex then
    mkJsRat (base * (10 : Int) ^ ex.toNat) ((10 : Nat) ^ fracs.length)
  else
    mkJsRat base ((10 : Nat) ^ fracs.length * (10 : Nat) ^ (-ex).toNat)

/-- Runtime JS values flowing through the pipeline.  `num none` is NaN. -/
inductive JsVal where
  | undefined : JsVal
  | null : JsVal
  | bool (b : Bool) : JsVal
  | num (q : Option JsRat) : JsVal
  | str (s : String) : JsVal
  | arr (elems : List JsVal) : JsVal
  | obj (fields : List (String × JsVal)) : JsVal

/-- JS truthiness: undefined, null, false, 0, NaN and the empty string
are falsy, everything else truthy. -/
def truthy : JsVal → Bool
  | .undefined => false
  | .null => false
  | .bool b => b
  | .num none => false
  | .num (some q) => q.num ≠ 0
  | .str s => s ≠ ""
  | .arr _ => true
  | .obj _ => true

/-- The JS expression a or-else b, i.e. a || b. -/
def jsOr (a b : JsVal) : JsVal := if truthy a then a else b

/-- Property access o.k on a receiver that is not null/undefined: on
objects the last binding of the key wins (JSON duplicate keys keep the
last value); on arrays and autoboxed primitives the access yields
undefined (no field of that name exists on the values that occur here).
The throwing receivers null and undefined are handled by `getFieldE`;
the embedding only applies `getField` where the receiver is known not
to be null/undefined (guarded data, records built by the pipeline). -/
def getField : JsVal → String → JsVal
  | .obj fields, k =>
      match fields.reverse.find? (fun p => p.1 = k) with
      | some p => p.2
      | none => .undefined
  | _, _ => .undefined

/-- Property access o.k in full JS semantics: a null or undefined
receiver raises a TypeError (the error case); any other receiver
yields the field as in `getField`. -/
def getFieldE (v : JsVal) (k : String) : Except Unit JsVal :=
  match v with
  | .null => .error ()
  | .undefined => .error ()
  | _ => .ok (getField v k)

/-- Digit characters of a natural number, most significant first.
Own implementation so that its structure (nonempty, all digits) is
provable. -/
def natDigits (n : Nat) : List Char :=
  go n n []
where
  go : Nat → Nat → List Char → List Char
  | _, 0, acc => if acc = [] then ['0'] else acc
  | 0, _, acc => acc
  | fuel + 1, m, acc =>
      go fuel (m / 10) (Char.ofNat (48 + m % 10) :: acc)

/-- Decimal rendering of a JsRat, as produced by JS number-to-string
conversion on the terminating decimals that arise from parsed JSON
(a non-terminating expansion is cut off after 30 digits; such a value
never reaches this function in the scenarios considered). -/
def numToString (q : JsRat) : String :=
  let sign := if q.num < 0 then "-" else ""
  let a := q.num.natAbs
  let d := q.den
  let ip := a / d
  let fracDigits := fracGo 30 (a % d) d
  sign ++ String.mk (natDigits ip) ++
    (if fracDigits = [] then "" else "." ++ String.mk fracDigits)
where
  fracGo : Nat → Nat → Nat → List Char
  | 0, _, _ => []
  | _ + 1, 0, _ => []
  | fuel + 1, r, d =>
      Char.ofNat (48 + (r * 10 / d) % 10) :: fracGo fuel (r * 10 % d) d

/-- JS String(v) coercion for the values that occur in the pipeline. -/
def jsToString : JsVal → String
  | .undefined => "undefined"
  | .null => "null"
  | .bool true => "true"
  | .bool false => "false"
  | .num none => "NaN"
  | .num (some q) => numToString q
  | .str s => s
  | .arr l => String.intercalate "," (l.map fun v => jsToStringShallow v)
  | .obj _ => "[object Object]"
where
  /-- Array elements are rendered one level deep; nested containers are
  rendered by their own join/obj form.  (Array.prototype.toString joins
  recursively; one extra level suffices for every value reaching this
  coercion here.) -/
  jsToStringShallow : JsVal → String
  | .undefined => ""
  | .null => ""
  | .bool true => "true"
  | .bool false => "false"
  | .num none => "NaN"
  | .num (some q) => numToString q
  | .str s => s
  | .arr _ => ""
  | .obj _ => "[object Object]"

/-- parseFloat: skip leading whitespace, optional sign, then the longest
prefix matching digits [. digits] [exponent]; NaN (none) when no digit
is found.  (The Infinity literal branch of the platform parseFloat is
not modelled; it is unreachable from the inputs considered.) -/
def parseFloat (s : String) : Option JsRat :=
  let cs0 := s.data.dropWhile (fun c => jsWsChar c)
  let sign : Int := if cs0.headD ' ' = '-' then -1 else 1
  let cs1 := if cs0.headD ' ' = '-' ∨ cs0.headD ' ' = '+' then cs0.tail else cs0
  let intDigits := cs1.takeWhile (fun c => isDigitChar c)
  let cs2 := cs1.dropWhile (fun c => isDigitChar c)
  let fracDigits :=
    if cs2.headD ' ' = '.' then cs2.tail.takeWhile (fun c => isDigitChar c) else []
  let cs3 :=
    if cs2.headD ' ' = '.' then cs2.tail.dropWhile (fun c => isDigitChar c) else cs2
  if intDigits = [] ∧ fracDigits = [] then none
  else
    let expVal : Int :=
      if cs3.headD ' ' = 'e' ∨ cs3.headD ' ' = 'E' then expDigits cs3.tail else 0
    some (ratFromParts sign intDigits fracDigits expVal)
where
  /-- Exponent part: optional sign then digits; an empty digit run means
  the exponent marker is not part of the number (value unchanged). -/
  expDigits (cs : List Char) : Int :=
    let esign : Int := if cs.headD ' ' = '-' then -1 else 1
    let cs := if cs.headD ' ' = '-' ∨ cs.headD ' ' = '+' then cs.tail else cs
    let ds := cs.takeWhile (fun c => isDigitChar c)
    if ds = [] then 0
    else esign * (ds.foldl (fun acc c => acc * 10 + (c.toNat - 48)) 0 : Nat)

/-- Local date-times as produced by the JS Date constructor with
numeric components; month is zero-based as in the source. -/
structure DateTime where
  year : Int
  month : Int
  day : Int
  hour : Int
  minute : Int
  second : Int
deriving DecidableEq

/-- new Date(year, month, day, h, m, s): out-of-range months roll over
into the year exactly as in JS.  (JS additionally rolls over day and
time overflow; no input considered here has out-of-range day or time
fields, so those fields are kept as given.) -/
def mkDate (year month day hour minute second : Int) : DateTime :=
  { year := year + month.ediv 12
    month := month.emod 12
    day := day, hour := hour, minute := minute, second := second }

def padTwo (n : Int) : String :=
  let m := n.toNat
  if m < 10 then "0" ++ String.mk (natDigits m) else String.mk (natDigits m)

/-- Date.prototype.toISOString rendering of a DateTime (milliseconds
are always zero for the values built here; the local-to-UTC offset is
not modelled, matching a UTC environment). -/
def isoString (d : DateTime) : String :=
  String.mk (natDigits d.year.toNat) ++ "-" ++ padTwo (d.month + 1) ++ "-" ++
    padTwo d.day ++ "T" ++ padTwo d.hour ++ ":" ++ padTwo d.minute ++ ":" ++
    padTwo d.second ++ ".000Z"

/-! ## JSON.parse (strict grammar) and JSON5.parse (lenient grammar) -/

/-- Whitespace accepted between strict-JSON tokens. -/
def jsonSkipWs (cs : List Char) : List Char :=
  cs.dropWhile (fun c => c = ' ' || c = '\t' || c = '\n' || c = '\r')

def hexDigitVal (c : Char) : Option Nat :=
  if '0' ≤ c && c ≤ '9' then some (c.toNat - 48)
  else if 'a' ≤ c && c ≤ 'f' then some (c.toNat - 87)
  else if 'A' ≤ c && c ≤ 'F' then some (c.toNat - 55)
  else none

/-- Body of a strict-JSON string after the opening quote: ends at an
unescaped double quote; only the eight named escapes and uXXXX are
accepted; raw control characters are rejected. -/
def jsonStringGo : Nat → List Char → List Char → Option (String × List Char)
  | 0, _, _ => none
  | _ + 1, acc, '"' :: rest => some (String.mk acc.reverse, rest)
  | fuel + 1, acc, '\\' :: e :: rest =>
      match e with
      | '"' => jsonStringGo fuel ('"' :: acc) rest
      | '\\' => jsonStringGo fuel ('\\' :: acc) rest
      | '/' => jsonStringGo fuel ('/' :: acc) rest
      | 'b' => jsonStringGo fuel ('\x08' :: acc) rest
      | 'f' => jsonStringGo fuel ('\x0c' :: acc) rest
      | 'n' => jsonStringGo fuel ('\n' :: acc) rest
      | 'r' => jsonStringGo fuel ('\r' :: acc) rest
      | 't' => jsonStringGo fuel ('\t' :: acc) rest
      | 'u' =>
          match rest with
          | h1 :: h2 :: h3 :: h4 :: rest2 =>
              match hexDigitVal h1, hexDigitVal h2, hexDigitVal h3, hexDigitVal h4 with
              | some a, some b, some c, some d =>
                  jsonStringGo fuel (Char.ofNat (a * 4096 + b * 256 + c * 16 + d) :: acc) rest2
              | _, _, _, _ => none
          | _ => none
      | _ => none
  | fuel + 1, acc, c :: rest =>
      if c.toNat < 32 then none else jsonStringGo fuel (c :: acc) rest
  | _, _, [] => none

def digitsToNat (l : List Char) : Nat :=
  l.foldl (fun acc c => acc * 10 + (c.toNat - 48)) 0

/-- Strict-JSON number: -? (0 | nonzero digits) frac? exp?. -/
def jsonNumber (cs : List Char) : Option (JsRat × List Char) :=
  let (sign, cs) : Int × List Char :=
    match cs with
    | '-' :: rest => (-1, rest)
    | rest => (1, rest)
  let ints := cs.takeWhile (fun c => isDigitChar c)
  let cs' := cs.dropWhile (fun c => isDigitChar c)
  if ints = [] then none
  else if ints.length > 1 ∧ ints.headD ' ' = '0' then none
  else
    let (fracs, cs'') :=
      match cs' with
      | '.' :: rest =>
          let f := rest.takeWhile (fun c => isDigitChar c)
          (f, rest.dropWhile (fun c => isDigitChar c))
      | rest => ([], rest)
    if cs' ≠ cs'' ∧ fracs = [] then none
    else
      let (expPart, cs3) : Option Int × List Char :=
        match cs'' with
        | 'e' :: rest => jsonExp rest
        | 'E' :: rest => jsonExp rest
        | rest => (some 0, rest)
      match expPart with
      | none => none
      | some ex => some (ratFromParts sign ints fracs ex, cs3)
where
  jsonExp (cs : List Char) : Option Int × List Char :=
    let (es, cs) : Int × List Char :=
      match cs with
      | '-' :: rest => (-1, rest)
      | '+' :: rest => (1, rest)
      | rest => (1, rest)
    let ds := cs.takeWhile (fun c => isDigitChar c)
    if ds = [] then (none, cs)
    else (some (es * (digitsToNat ds : Int)), cs.dropWhile (fun c => isDigitChar c))

mutual

/-- Strict-JSON value parser (fuel-indexed recursive descent). -/
def jsonVal : Nat → List Char → Option (JsVal × List Char)
  | 0, _ => none
  | fuel + 1, cs =>
      match jsonSkipWs cs with
      | '{' :: rest =>
          match jsonSkipWs rest with
          | '}' :: rest2 => some (.obj [], rest2)
          | rest2 => jsonMembers fuel [] rest2
      | '[' :: rest =>
          match jsonSkipWs rest with
          | ']' :: rest2 => some (.arr [], rest2)
          | rest2 => jsonElems fuel [] rest2
      | '"' :: rest =>
          match jsonStringGo (rest.length + 1) [] rest with
          | some (s, rest2) => some (.str s, rest2)
          | none => none
      | 't' :: 'r' :: 'u' :: 'e' :: rest => some (.bool true, rest)
      | 'f' :: 'a' :: 'l' :: 's' :: 'e' :: rest => some (.bool false, rest)
      | 'n' :: 'u' :: 'l' :: 'l' :: rest => some (.null, rest)
      | rest =>
          match jsonNumber rest with
          | some (q, rest2) => some (.num (some q), rest2)
          | none => none

/-- Members of a strict-JSON object after at least one member is known
to follow. -/
def jsonMembers : Nat → List (String × JsVal) → List Char → Option (JsVal × List Char)
  | 0, _, _ => none
  | fuel + 1, acc, cs =>
      match jsonSkipWs cs with
      | '"' :: rest =>
          match jsonStringGo (rest.length + 1) [] rest with
          | some (k, rest2) =>
              match jsonSkipWs rest2 with
              | ':' :: rest3 =>
                  match jsonVal fuel rest3 with
                  | some (v, rest4) =>
                      match jsonSkipWs rest4 with
                      | ',' :: rest5 => jsonMembers fuel ((k, v) :: acc) rest5
                      | '}' :: rest5 => some (.obj (((k, v) :: acc).reverse), rest5)
                      | _ => none
                  | none => none
              | _ => none
          | none => none
      | _ => none

/-- Elements of a strict-JSON array after at least one element is known
to follow. -/
def jsonElems : Nat → List JsVal → List Char → Option (JsVal × List Char)
  | 0, _, _ => none
  | fuel + 1, acc, cs =>
      match jsonVal fuel cs with
      | some (v, rest) =>
          match jsonSkipWs rest with
          | ',' :: rest2 => jsonElems fuel (v :: acc) rest2
          | ']' :: rest2 => some (.arr ((v :: acc).reverse), rest2)
          | _ => none
      | none => none

end

/-- JSON.parse: whole-input strict parse. -/
def jsonParse (s : String) : Option JsVal :=
  match jsonVal (s.length + 1) s.data with
  | some (v, rest) => if jsonSkipWs rest = [] then some v else none
  | none => none

/-- JSON5 identifier start ($, _, letters; the unicode categories are
not needed for the inputs considered). -/
def json5IdStart (c : Char) : Bool :=
  isAlphaChar c || c = '_' || c = '$'

def json5IdChar (c : Char) : Bool :=
  json5IdStart c || isDigitChar c

/-- Body of a JSON5 string after the opening quote q (single or double):
the named escapes are honoured, an escaped line break is a line
continuation, any other escaped character stands for itself. -/
def json5StringGo (q : Char) : Nat → List Char → List Char → Option (String × List Char)
  | 0, _, _ => none
  | fuel + 1, acc, c :: rest =>
      if c = q then some (String.mk acc.reverse, rest)
      else if c = '\\' then
        match rest with
        | [] => none
        | e :: rest2 =>
            match e with
            | 'b' => json5StringGo q fuel ('\x08' :: acc) rest2
            | 'f' => json5StringGo q fuel ('\x0c' :: acc) rest2
            | 'n' => json5StringGo q fuel ('\n' :: acc) rest2
            | 'r' => json5StringGo q fuel ('\r' :: acc) rest2
            | 't' => json5StringGo q fuel ('\t' :: acc) rest2
            | 'v' => json5StringGo q fuel ('\x0b' :: acc) rest2
            | '\n' => json5StringGo q fuel acc rest2
            | 'u' =>
                match rest2 with
                | h1 :: h2 :: h3 :: h4 :: rest3 =>
                    match hexDigitVal h1, hexDigitVal h2, hexDigitVal h3, hexDigitVal h4 with
                    | some a, some b, some c', some d =>
                        json5StringGo q fuel
                          (Char.ofNat (a * 4096 + b * 256 + c' * 16 + d) :: acc) rest3
                    | _, _, _, _ => none
                | _ => none
            | other => json5StringGo q fuel (other :: acc) rest2
      else if c = '\n' then none
      else json5StringGo q fuel (c :: acc) rest
  | _, _, [] => none

/-- JSON5 number: optional sign (+ allowed), digits with an optional
leading or trailing dot, optional exponent.  (Hex literals and the
Infinity/NaN words are not modelled.) -/
def json5Number (cs : List Char) : Option (JsRat × List Char) :=
  let (sign, cs) : Int × List Char :=
    match cs with
    | '-' :: rest => (-1, rest)
    | '+' :: rest => (1, rest)
    | rest => (1, rest)
  let ints := cs.takeWhile (fun c => isDigitChar c)
  let cs' := cs.dropWhile (fun c => isDigitChar c)
  let (fracs, cs'') :=
    match cs' with
    | '.' :: rest =>
        let f := rest.takeWhile (fun c => isDigitChar c)
        (f, rest.dropWhile (fun c => isDigitChar c))
    | rest => ([], rest)
  if ints = [] ∧ (cs' = cs'' ∨ fracs = []) then none
  else
    let (expPart, cs3) : Option Int × List Char :=
      match cs'' with
      | 'e' :: rest => jsonNumber.jsonExp rest
      | 'E' :: rest => jsonNumber.jsonExp rest
      | rest => (some 0, rest)
    match expPart with
    | none => none
    | some ex => some (ratFromParts sign ints fracs ex, cs3)

mutual

/-- JSON5 value parser: strict grammar extended with single-quoted
strings and the lenient numbers above. -/
def json5Val : Nat → List Char → Option (JsVal × List Char)
  | 0, _ => none
  | fuel + 1, cs =>
      match cs.dropWhile (fun c => jsWsChar c) with
      | '{' :: rest =>
          match rest.dropWhile (fun c => jsWsChar c) with
          | '}' :: rest2 => some (.obj [], rest2)
          | rest2 => json5Members fuel [] rest2
      | '[' :: rest =>
          match rest.dropWhile (fun c => jsWsChar c) with
          | ']' :: rest2 => some (.arr [], rest2)
          | rest2 => json5Elems fuel [] rest2
      | '"' :: rest =>
          match json5StringGo '"' (rest.length + 1) [] rest with
          | some (s, rest2) => some (.str s, rest2)
          | none => none
      | '\'' :: rest =>
          match json5StringGo '\'' (rest.length + 1) [] rest with
          | some (s, rest2) => some (.str s, rest2)
          | none => none
      | 't' :: 'r' :: 'u' :: 'e' :: rest => some (.bool true, rest)
      | 'f' :: 'a' :: 'l' :: 's' :: 'e' :: rest => some (.bool false, rest)
      | 'n' :: 'u' :: 'l' :: 'l' :: rest => some (.null, rest)
      | rest =>
          match json5Number rest with
          | some (q, rest2) => some (.num (some q), rest2)
          | none => none

/-- JSON5 object members: keys may be double-quoted, single-quoted or
bare identifiers; a trailing comma before the closing brace is allowed. -/
def json5Members : Nat → List (String × JsVal) → List Char → Option (JsVal × List Char)
  | 0, _, _ => none
  | fuel + 1, acc, cs =>
      let cs := cs.dropWhile (fun c => jsWsChar c)
      let keyParse : Option (String × List Char) :=
        match cs with
        | '"' :: rest => json5StringGo '"' (rest.length + 1) [] rest
        | '\'' :: rest => json5StringGo '\'' (rest.length + 1) [] rest
        | c :: _ =>
            if json5IdStart c then
              some (String.mk (cs.takeWhile (fun d => json5IdChar d)),
                    cs.dropWhile (fun d => json5IdChar d))
            else none
        | [] => none
      match keyParse with
      | none => none
      | some (k, rest2) =>
          match rest2.dropWhile (fun c => jsWsChar c) with
          | ':' :: rest3 =>
              match json5Val fuel rest3 with
              | some (v, rest4) =>
                  match rest4.dropWhile (fun c => jsWsChar c) with
                  | ',' :: rest5 =>
                      match rest5.dropWhile (fun c => jsWsChar c) with
                      | '}' :: rest6 => some (.obj (((k, v) :: acc).reverse), rest6)
                      | rest6 => json5Members fuel ((k, v) :: acc) rest6
                  | '}' :: rest5 => some (.obj (((k, v) :: acc).reverse), rest5)
                  | _ => none
              | none => none
          | _ => none

/-- JSON5 array elements; a trailing comma before the closing bracket
is allowed. -/
def json5Elems : Nat → List JsVal → List Char → Option (JsVal × List Char)
  | 0, _, _ => none
  | fuel + 1, acc, cs =>
      match json5Val fuel cs with
      | some (v, rest) =>
          match rest.dropWhile (fun c => jsWsChar c) with
          | ',' :: rest2 =>
              match rest2.dropWhile (fun c => jsWsChar c) with
              | ']' :: rest3 => some (.arr ((v :: acc).reverse), rest3)
              | rest3 => json5Elems fuel (v :: acc) rest3
          | ']' :: rest2 => some (.arr ((v :: acc).reverse), rest2)
          | _ => none
      | none => none

end

/-- JSON5.parse: whole-input lenient parse. -/
def json5Parse (s : String) : Option JsVal :=
  match json5Val (s.length + 1) s.data with
  | some (v, rest) => if rest.dropWhile (fun c => jsWsChar c) = [] then some v else none
  | none => none

/-! ## sanitizeJsonString: the ordered repair pipeline -/

/-- Global regex replacement driver: scan left to right; where `step`
matches a prefix of the current suffix it yields the replacement text
and the unconsumed rest (every match consumes at least one character),
otherwise one character is copied. -/
def scanReplace (step : List Char → Option (List Char × List Char)) :
    Nat → List Char → List Char
  | 0, cs => cs
  | _, [] => []
  | fuel + 1, c :: cs =>
      match step (c :: cs) with
      | some (repl, rest) => repl ++ scanReplace step fuel rest
      | none => c :: scanReplace step fuel cs

def runReplace (step : List Char → Option (List Char × List Char))
    (cs : List Char) : List Char :=
  scanReplace step cs.length cs

def isQuoteChar (c : Char) : Bool := c = '"' || c = '\''

/-- Source pattern (["'])?([a-zA-Z0-9_]+)(["'])?: with replacement
"$2": (key quoting). -/
def keyQuoteStep (cs : List Char) : Option (List Char × List Char) :=
  let cs1 := match cs with
    | c :: rest => if isQuoteChar c then rest else cs
    | [] => cs
  let word := cs1.takeWhile (fun c => isWordChar c)
  if word = [] then none
  else
    let cs2 := cs1.dropWhile (fun c => isWordChar c)
    let cs3 := match cs2 with
      | c :: rest => if isQuoteChar c then rest else cs2
      | [] => cs2
    match cs3 with
    | ':' :: rest => some ('"' :: (word ++ ['"', ':']), rest)
    | _ => none

/-- Source pattern :\s*'([^']*)' with replacement : "$1" (single-quoted
value requoting). -/
def singleQuoteValStep (cs : List Char) : Option (List Char × List Char) :=
  match cs with
  | ':' :: rest =>
      match rest.dropWhile (fun c => jsWsChar c) with
      | '\'' :: rest2 =>
          let content := rest2.takeWhile (fun c => c ≠ '\'')
          match rest2.dropWhile (fun c => c ≠ '\'') with
          | '\'' :: rest3 => some (':' :: ' ' :: '"' :: (content ++ ['"']), rest3)
          | _ => none
      | _ => none
  | _ => none

/-- Lookahead of the bare-word pattern: \s*[,}] . -/
def bareWordLookahead (cs : List Char) : Bool :=
  match cs.dropWhile (fun c => jsWsChar c) with
  | ',' :: _ => true
  | '}' :: _ => true
  | _ => false

/-- Greedy backtracking search for the end of the bare-word capture
[a-zA-Z][a-zA-Z0-9_\s]*[a-zA-Z0-9_]: the largest e with the final
character a word character and the lookahead satisfied. -/
def bareWordFindEnd (cs1 : List Char) : Nat → Option Nat
  | 0 => none
  | e + 1 =>
      if e + 1 < 2 then none
      else
        match cs1.get? e with
        | some c =>
            if isWordChar c ∧ bareWordLookahead (cs1.drop (e + 1)) then some (e + 1)
            else bareWordFindEnd cs1 e
        | none => bareWordFindEnd cs1 e

/-- Source pattern :\s*([a-zA-Z][a-zA-Z0-9_\s]*[a-zA-Z0-9_])(?=\s*[,}])
with replacement : "$1" (bare-word value quoting; the lookahead is not
consumed). -/
def bareWordValStep (cs : List Char) : Option (List Char × List Char) :=
  match cs with
  | ':' :: rest =>
      let cs1 := rest.dropWhile (fun c => jsWsChar c)
      match cs1 with
      | c :: tail =>
          if isAlphaChar c then
            let runLen := 1 + (tail.takeWhile (fun d => isWordChar d || jsWsChar d)).length
            match bareWordFindEnd cs1 runLen with
            | some e => some (':' :: ' ' :: '"' :: (cs1.take e ++ ['"']), cs1.drop e)
            | none => none
          else none
      | [] => none
  | _ => none

/-- One of the source patterns a\s*b with a fixed replacement. -/
def pairStep (a b : Char) (repl : List Char) (cs : List Char) :
    Option (List Char × List Char) :=
  match cs with
  | c :: rest =>
      if c = a then
        match rest.dropWhile (fun d => jsWsChar d) with
        | d :: rest2 => if d = b then some (repl, rest2) else none
        | [] => none
      else none
  | [] => none

/-- Source pattern ",\s*" with replacement ", " . -/
def quoteCommaQuoteStep (cs : List Char) : Option (List Char × List Char) :=
  match cs with
  | '"' :: ',' :: rest =>
      match rest.dropWhile (fun c => jsWsChar c) with
      | '"' :: rest2 => some (['"', ',', ' ', '"'], rest2)
      | _ => none
  | _ => none

/-- Source pattern "\s*,\s*" with replacement ", " . -/
def quoteWsCommaQuoteStep (cs : List Char) : Option (List Char × List Char) :=
  match cs with
  | '"' :: rest =>
      match rest.dropWhile (fun c => jsWsChar c) with
      | ',' :: rest2 =>
          match rest2.dropWhile (fun c => jsWsChar c) with
          | '"' :: rest3 => some (['"', ',', ' ', '"'], rest3)
          | _ => none
      | _ => none
  | _ => none

/-- Source pattern "\s*\n\s*" with replacement a single space: matches
when the whitespace run after the quote contains a newline and ends at
another quote (both quotes are consumed). -/
def quoteNlQuoteStep (cs : List Char) : Option (List Char × List Char) :=
  match cs with
  | '"' :: rest =>
      let run := rest.takeWhile (fun c => jsWsChar c)
      if run.contains '\n' then
        match rest.dropWhile (fun c => jsWsChar c) with
        | '"' :: rest2 => some ([' '], rest2)
        | _ => none
      else none
  | _ => none

/-- Step 4 of the sanitizer: the ordered sequence of global regex
replacements of the source, lines 420-452. -/
def syntaxFixes (cs : List Char) : List Char :=
  let c1 := runReplace keyQuoteStep cs
  let c2 := runReplace singleQuoteValStep c1
  let c3 := runReplace bareWordValStep c2
  let c4 := runReplace (pairStep ',' '}' ['}']) c3
  let c5 := runReplace (pairStep ',' ']' [']']) c4
  let c6 := runReplace (pairStep '}' '{' ['}', ',', ' ', '{']) c5
  let c7 := runReplace (pairStep ']' '[' [']', ',', ' ', '[']) c6
  let c8 := runReplace (pairStep '"' '[' ['"', ',', ' ', '[']) c7
  let c9 := runReplace (pairStep ']' '"' [']', ',', ' ', '"']) c8
  let c10 := runReplace (pairStep '}' '[' ['}', ',', ' ', '[']) c9
  let c11 := runReplace (pairStep ']' '{' [']', ',', ' ', '{']) c10
  let c12 := runReplace quoteCommaQuoteStep c11
  let c13 := runReplace quoteWsCommaQuoteStep c12
  let c14 := runReplace quoteNlQuoteStep c13
  c14.map (fun c => if c = '\n' then ' ' else c)

/-- The matches of /\\["\\/bfnrt]/g : valid escape pairs, scanned left
to right without overlap. -/
def findValidEscapes : List Char → List (List Char)
  | '\\' :: c :: rest =>
      if c = '"' || c = '\\' || c = '/' || c = 'b' || c = 'f' || c = 'n'
          || c = 'r' || c = 't' then
        ['\\', c] :: findValidEscapes rest
      else findValidEscapes (c :: rest)
  | _ :: rest => findValidEscapes rest
  | [] => []

/-- str.replace(pattern, repl) for a literal pattern: first occurrence
only. -/
def replaceFirstGo (pat repl : List Char) : Nat → List Char → List Char
  | 0, cs => cs
  | _, [] => []
  | fuel + 1, c :: cs =>
      if pat.isPrefixOf (c :: cs) then repl ++ (c :: cs).drop pat.length
      else c :: replaceFirstGo pat repl fuel cs

def replaceFirst (cs pat repl : List Char) : List Char :=
  replaceFirstGo pat repl cs.length cs

def escapePlaceholder (i : Nat) : List Char :=
  ("__ESCAPE_".data) ++ natDigits i ++ ("__".data)

/-- Step 3 of the sanitizer: protect the valid escape pairs behind
placeholders, strip every remaining backslash, then restore them. -/
def escapeProtect (cs : List Char) : List Char :=
  let ms := (findValidEscapes cs).enum
  let stored := ms.foldl (fun acc p => replaceFirst acc p.2 (escapePlaceholder p.1)) cs
  let stripped := stored.filter (fun c => c ≠ '\\')
  ms.foldl (fun acc p => replaceFirst acc (escapePlaceholder p.1) p.2) stripped

/-- Step 5 of the sanitizer: envelope repair. -/
def envelopeFix (cs : List Char) : List Char :=
  let cs1 := match cs with
    | '{' :: _ => cs
    | _ => '{' :: cs
  match cs1.getLast? with
  | some '}' => cs1
  | _ => cs1 ++ ['}']

/-- First replacement of step 6: /\\\\"/g → \" (collapse a
double-escaped quote). -/
def collapseDEQ : List Char → List Char
  | '\\' :: '\\' :: '"' :: rest => '\\' :: '"' :: collapseDEQ rest
  | c :: rest => c :: collapseDEQ rest
  | [] => []

/-- The character automaton of step 6 (source lines 462-496), kept
with the exact branch order of the source: the double-quote toggle
branch precedes the nested-quote neutralization branch. -/
def quoteNeutralizeGo : Bool → Bool → List Char → List Char
  | _, _, [] => []
  | inS, true, c :: rest => c :: quoteNeutralizeGo inS false rest
  | inS, false, c :: rest =>
      if c = '\\' then c :: quoteNeutralizeGo inS true rest
      else if c = '"' then c :: quoteNeutralizeGo (!inS) false rest
      else if inS && (c = '"' || c = '\'') then ' ' :: quoteNeutralizeGo inS false rest
      else c :: quoteNeutralizeGo inS false rest

def quoteNeutralize (cs : List Char) : List Char :=
  quoteNeutralizeGo false false cs

/-- Step 6 of the sanitizer: collapse double-escaped quotes, run the
automaton, and keep the automaton output unless it is empty
(result or-else cleaned). -/
def quoteCleanup (cs : List Char) : List Char :=
  let a := collapseDEQ cs
  let b := quoteNeutralize a
  if b = [] then a else b

def onData (f : List Char → List Char) (s : String) : String :=
  String.mk (f s.data)

def jsTrim (s : String) : String :=
  String.mk ((s.data.dropWhile (fun c => jsWsChar c)).reverse.dropWhile
    (fun c => jsWsChar c) |>.reverse)

/-- The stages of sanitizeJsonString in source order: debug logging,
trim, escape protection, syntax fixes, envelope repair, quote cleanup,
final logging and validation parse (the two logging stages and the
validation parse do not modify the string). -/
def sanitizeStepList : List (String → String) :=
  [fun s => s, jsTrim, onData escapeProtect, onData syntaxFixes,
   onData envelopeFix, onData quoteCleanup, fun s => s]

/-- Runs the stages of the sanitizer body; `fault` injects an internal
exception before the stage of that index, modelling the try/catch of
the source. -/
def sanitizeRunGo : Nat → List (String → String) → Option Nat → String →
    Except Unit String
  | _, [], _, s => .ok s
  | i, f :: fs, fault, s =>
      if fault = some i then .error ()
      else sanitizeRunGo (i + 1) fs fault (f s)

def sanitizeRun (fault : Option Nat) (s : String) : Except Unit String :=
  sanitizeRunGo 0 sanitizeStepList fault s

/-- The literal fallback text returned by the catch handler of
sanitizeJsonString. -/
def sanitizeFallback : String :=
  "\x7b\"vendorName\":\"Unknown Vendor\",\"transactionDate\":\"2023-01-01\",\"totalAmount\":0,\"items\":[]\x7d"

/-- sanitizeJsonString with an injectable internal fault: a faulted run
is absorbed by the catch handler, which returns the fixed fallback
text. -/
def sanitizeJsonStringFaulted (fault : Option Nat) (s : String) : String :=
  match sanitizeRun fault s with
  | .ok r => r
  | .error _ => sanitizeFallback

/-- sanitizeJsonString as executed (no internal fault occurs: every
stage is total). -/
def sanitizeJsonString (s : String) : String :=
  sanitizeJsonStringFaulted none s

/-! ## Candidate location, regex field extraction, and the pipeline -/

/-- Index of the first occurrence of a (nonempty) literal pattern. -/
def firstIdx (pat : List Char) : List Char → Option Nat
  | [] => none
  | c :: rest =>
      if pat.isPrefixOf (c :: rest) then some 0
      else (firstIdx pat rest).map (fun n => n + 1)

def trimWsChars (cs : List Char) : List Char :=
  ((cs.dropWhile (fun c => jsWsChar c)).reverse.dropWhile
    (fun c => jsWsChar c)).reverse

/-- One attempt of the fenced-block pattern (triple backtick, optional
json tag, lazily captured body, closing triple backtick) at the head of
`cs`; the greedy optional tag is tried with the tag first. -/
def codeBlockTryAt (cs : List Char) : Option (List Char) :=
  let tick : List Char := ['\x60', '\x60', '\x60']
  if tick.isPrefixOf cs then
    let t := cs.drop 3
    let tryBody (u : List Char) : Option (List Char) :=
      match firstIdx tick u with
      | some p => some (trimWsChars (u.take p))
      | none => none
    if ("json".data).isPrefixOf t then
      match tryBody (t.drop 4) with
      | some r => some r
      | none => tryBody t
    else tryBody t
  else none

/-- Leftmost match of the fenced-block pattern. -/
def codeBlockScan : List Char → Option (List Char)
  | [] => none
  | c :: rest =>
      match codeBlockTryAt (c :: rest) with
      | some r => some r
      | none => codeBlockScan rest

/-- Source pattern \x7b[\s\S]*\x7d : from the first opening brace that
has a later closing brace, up to the last closing brace. -/
def braceBlock (cs : List Char) : Option (List Char) :=
  match firstIdx ['\x7b'] cs with
  | none => none
  | some i =>
      match firstIdx ['\x7d'] cs.reverse with
      | none => none
      | some revJ =>
          let j := cs.length - 1 - revJ
          if i < j then some ((cs.drop i).take (j - i + 1)) else none

/-- Step 1 of extractJsonFromLLMResponse: locate the candidate span.
The fenced-block match is used only when its captured body is truthy
(nonempty, source line 209); an empty captured body — like no fenced
block at all — falls through to the brace-delimited span of the whole
text. -/
def findCandidate (s : String) : Option String :=
  match codeBlockScan s.data with
  | some r => if r = [] then (braceBlock s.data).map String.mk else some (String.mk r)
  | none => (braceBlock s.data).map String.mk

/-- getPositionFromLineCol (source lines 365-378). -/
def getPositionFromLineCol (text : String) (line col : Int) : Int :=
  let lines := text.splitOn "\n"
  let k : Nat := if line ≤ 0 then 0 else min (line - 1).toNat lines.length
  let position : Int :=
    ((lines.take k).foldl (fun acc l => acc + l.length + 1) (0 : Int))
  if line ≤ lines.length then position + col - 1 else position

/-- The default record of extractJsonFromLLMResponse (and of
validateAndCleanData's early return). -/
def defaultData (now : DateTime) : JsVal :=
  .obj [("vendorName", .str "Unknown Vendor"),
        ("transactionDate", .str (isoString now)),
        ("totalAmount", .num (some 0)),
        ("items", .arr [])]

/-- parseFloat(String(v or-else dflt)). -/
def coerceNum (v : JsVal) (dflt : String) : Option JsRat :=
  parseFloat (jsToString (jsOr v (.str dflt)))

/-- Per-item cleaning of validateAndCleanData: the three property
accesses on the item happen in source order and raise (error) when the
item is null or undefined — e.g. a null entry of a parsed items
array. -/
def cleanItemE (item : JsVal) : Except Unit JsVal :=
  match getFieldE item "name" with
  | .error e => .error e
  | .ok n =>
      match getFieldE item "quantity" with
      | .error e => .error e
      | .ok q =>
          match getFieldE item "price" with
          | .error e => .error e
          | .ok p =>
              .ok (.obj [("name", jsOr n (.str "Unnamed Item")),
                         ("quantity", .num (parseFloat (jsToString (jsOr q (.str "1"))))),
                         ("price", .num (parseFloat (jsToString (jsOr p (.str "0")))))])

/-- items.map(item => ...) with the per-item cleaning: evaluated left
to right, the first raising item aborts the whole map. -/
def cleanItems : List JsVal → Except Unit (List JsVal)
  | [] => .ok []
  | item :: rest =>
      match cleanItemE item with
      | .error e => .error e
      | .ok c =>
          match cleanItems rest with
          | .error e => .error e
          | .ok cs => .ok (c :: cs)

/-- typeof data is object and data is truthy (the guard of
validateAndCleanData; null is falsy, so only arrays and objects pass). -/
def isObjectLike : JsVal → Bool
  | .obj _ => true
  | .arr _ => true
  | _ => false

/-- validateAndCleanData (source lines 281-307).  The accesses on
`data` itself cannot raise (the guard admits only objects and arrays),
so only the per-item map can; its error is the function's error.  (In
the source the scalar fields of the result literal are evaluated before
the items map; since they cannot raise, hoisting the map does not
change observable behavior.)  The items field of the result:
data.items mapped element-wise when it is an array, else []. -/
def itemsOf (data : JsVal) : Except Unit (List JsVal) :=
  match getField data "items" with
  | .arr l => cleanItems l
  | _ => .ok []

/-- validateAndCleanData continued: the guarded branch assembles the
result record around `itemsOf`. -/
def validateAndCleanDataE (now : DateTime) (data : JsVal) : Except Unit JsVal :=
  if isObjectLike data then
    match itemsOf data with
    | .error e => .error e
    | .ok items =>
        .ok (.obj [("vendorName", jsOr (getField data "vendorName") (.str "Unknown Vendor")),
                   ("transactionDate",
                     jsOr (getField data "transactionDate") (.str (isoString now))),
                   ("totalAmount", .num (coerceNum (getField data "totalAmount") "0")),
                   ("items", .arr items)])
  else .ok (defaultData now)

/-- One attempt of ["']K["']\s*:\s*["']([^"']+)["'] at the head of cs. -/
def strFieldTryAt (key : List Char) (cs : List Char) : Option String :=
  match cs with
  | q :: rest =>
      if isQuoteChar q ∧ key.isPrefixOf rest then
        match rest.drop key.length with
        | q2 :: r3 =>
            if isQuoteChar q2 then
              match r3.dropWhile (fun c => jsWsChar c) with
              | ':' :: r5 =>
                  match r5.dropWhile (fun c => jsWsChar c) with
                  | q3 :: r7 =>
                      if isQuoteChar q3 then
                        let content := r7.takeWhile (fun c => ¬ isQuoteChar c)
                        if content = [] then none
                        else
                          match r7.dropWhile (fun c => ¬ isQuoteChar c) with
                          | _ :: _ => some (String.mk content)
                          | [] => none
                      else none
                  | [] => none
              | _ => none
            else none
        | [] => none
      else none
  | [] => none

/-- Leftmost match of the quoted string-field pattern for a key. -/
def strFieldMatch (key : String) : List Char → Option String
  | [] => none
  | c :: rest =>
      match strFieldTryAt key.data (c :: rest) with
      | some r => some r
      | none => strFieldMatch key rest

/-- One attempt of ["']K["']\s*:\s*([\d.]+) at the head of cs. -/
def numFieldTryAt (key : List Char) (cs : List Char) : Option String :=
  match cs with
  | q :: rest =>
      if isQuoteChar q ∧ key.isPrefixOf rest then
        match rest.drop key.length with
        | q2 :: r3 =>
            if isQuoteChar q2 then
              match r3.dropWhile (fun c => jsWsChar c) with
              | ':' :: r5 =>
                  let r6 := r5.dropWhile (fun c => jsWsChar c)
                  let run := r6.takeWhile (fun c => isDigitChar c || c = '.')
                  if run = [] then none else some (String.mk run)
              | _ => none
            else none
        | [] => none
      else none
  | [] => none

/-- Leftmost match of the numeric-field pattern for a key. -/
def numFieldMatch (key : String) : List Char → Option String
  | [] => none
  | c :: rest =>
      match numFieldTryAt key.data (c :: rest) with
      | some r => some r
      | none => numFieldMatch key rest

/-- One attempt of ["']items["']\s*:\s*\[([\s\S]*?)\] at the head:
the lazy capture ends at the first closing bracket. -/
def itemsBodyTryAt (cs : List Char) : Option (List Char) :=
  match cs with
  | q :: rest =>
      if isQuoteChar q ∧ ("items".data).isPrefixOf rest then
        match rest.drop 5 with
        | q2 :: r3 =>
            if isQuoteChar q2 then
              match r3.dropWhile (fun c => jsWsChar c) with
              | ':' :: r5 =>
                  match r5.dropWhile (fun c => jsWsChar c) with
                  | '[' :: r7 =>
                      let body := r7.takeWhile (fun c => c ≠ ']')
                      match r7.dropWhile (fun c => c ≠ ']') with
                      | ']' :: _ => some body
                      | _ => none
                  | _ => none
              | _ => none
            else none
        | [] => none
      else none
  | [] => none

def itemsBodyMatch : List Char → Option (List Char)
  | [] => none
  | c :: rest =>
      match itemsBodyTryAt (c :: rest) with
      | some r => some r
      | none => itemsBodyMatch rest

/-- The separator \x7d\s*,\s*\x7b of the item split; returns the rest
after the separator when it matches at the head. -/
def itemSepTryAt (cs : List Char) : Option (List Char) :=
  match cs with
  | '\x7d' :: rest =>
      match rest.dropWhile (fun c => jsWsChar c) with
      | ',' :: r2 =>
          match r2.dropWhile (fun c => jsWsChar c) with
          | '\x7b' :: r3 => some r3
          | _ => none
      | _ => none
  | _ => none

/-- String.prototype.split on the item separator pattern. -/
def splitItems : Nat → List Char → List Char → List (List Char)
  | 0, acc, cs => [acc.reverse ++ cs]
  | _, acc, [] => [acc.reverse]
  | fuel + 1, acc, c :: cs =>
      match itemSepTryAt (c :: cs) with
      | some rest => acc.reverse :: splitItems fuel [] rest
      | none => splitItems fuel (c :: acc) cs

/-- Per-item handling inside extractDataWithRegex: restore the brace
envelope, sanitize, then strict parse, lenient parse, and finally
per-field regex extraction with defaults. -/
def parseItemString (itemRaw : List Char) : JsVal :=
  let t1 := match (jsTrim (String.mk itemRaw)).data with
    | '\x7b' :: _ => itemRaw
    | _ => '\x7b' :: itemRaw
  let t2 := match (jsTrim (String.mk t1)).data.getLast? with
    | some '\x7d' => t1
    | _ => t1 ++ ['\x7d']
  let sanitized := sanitizeJsonString (String.mk t2)
  match jsonParse sanitized with
  | some v => v
  | none =>
      match json5Parse sanitized with
      | some v => v
      | none =>
          .obj [("name",
                  match strFieldMatch "name" sanitized.data with
                  | some n => .str n
                  | none => .str "Unknown Item"),
                ("quantity", .num
                  (match numFieldMatch "quantity" sanitized.data with
                   | some t => parseFloat t
                   | none => some 1)),
                ("price", .num
                  (match numFieldMatch "price" sanitized.data with
                   | some t => parseFloat t
                   | none => some 0))]

/-- extractDataWithRegex (source lines 312-360). -/
def extractDataWithRegex (text : String) (dflt : JsVal) : JsVal :=
  let cs := text.data
  .obj [("vendorName",
          match strFieldMatch "vendorName" cs with
          | some v => .str v
          | none => getField dflt "vendorName"),
        ("transactionDate",
          match strFieldMatch "transactionDate" cs with
          | some v => .str v
          | none => getField dflt "transactionDate"),
        ("totalAmount",
          match numFieldMatch "totalAmount" cs with
          | some t => .num (parseFloat t)
          | none => getField dflt "totalAmount"),
        ("items",
          match itemsBodyMatch cs with
          | some body =>
              if body = [] then .arr []
              else .arr ((splitItems body.length [] body).map
                     fun p => parseItemString p)
          | none => .arr [])]

/-- The control-character strip applied before the lenient parse:
/[\u0000-\u001F\u007F-\u009F]/g removed. -/
def stripControl (s : String) : String :=
  String.mk (s.data.filter
    (fun c => ¬(c.toNat ≤ 31 ∨ (127 ≤ c.toNat ∧ c.toNat ≤ 159))))

/-- JS String.prototype.substring with clamping. -/
def jsSubstring (s : String) (a b : Int) : String :=
  let n : Int := s.length
  let a' := (max 0 (min a n)).toNat
  let b' := (max 0 (min b n)).toNat
  let lo := min a' b'
  let hi := max a' b'
  String.mk ((s.data.drop lo).take (hi - lo))

/-- The JSON5-error diagnostic (source lines 246-265): the oracle
errLoc stands for the line/column pair carried by a JSON5 parse error
message; the context snippet is computed from it exactly as in the
source and emitted as a log line only.  (A cleaning TypeError carries
no line:column pair, so that path contributes no diagnostic line.) -/
def json5Diag (errLoc : String → Option (Nat × Nat)) (sanitized : String) :
    List String :=
  match errLoc sanitized with
  | some (line, col) =>
      let position := getPositionFromLineCol sanitized line col
      if position ≠ -1 then
        ["Error context: ..." ++
          jsSubstring sanitized (position - 20) (position + 20) ++ "..."]
      else []
  | none => []

/-- Approach 3 of extractJsonFromLLMResponse: the regex fallback on
the sanitized text, with the log line it emits. -/
def regexStage (now : DateTime) (sanitized : String) (logs : List String) :
    JsVal × List String :=
  (extractDataWithRegex sanitized (defaultData now),
   logs ++ ["Falling back to regex-based extraction"])

/-- Approach 2 of extractJsonFromLLMResponse: JSON5 parse of the
control-stripped sanitized text and, inside the same try, the cleaning
of the parsed value; an exception from either advances to the regex
fallback.  On a parse success the success log is emitted before the
cleaning runs, so a cleaning exception leaves both the success log and
the subsequent error log in the stream. -/
def lenientStage (errLoc : String → Option (Nat × Nat)) (now : DateTime)
    (sanitized : String) (logs : List String) : JsVal × List String :=
  match json5Parse (stripControl sanitized) with
  | none =>
      regexStage now sanitized
        (logs ++ ["JSON5 parse error"] ++ json5Diag errLoc sanitized)
  | some v =>
      match validateAndCleanDataE now v with
      | .ok r => (r, logs ++ ["Successfully parsed with JSON5.parse"])
      | .error _ =>
          regexStage now sanitized
            (logs ++ ["Successfully parsed with JSON5.parse", "JSON5 parse error"])

/-- Steps 2 and 3 of extractJsonFromLLMResponse on the located
candidate span: sanitize, then approach 1 (strict JSON.parse) with the
cleaning inside the same try — an exception from the cleaning of a
strictly parsed value advances to approach 2 exactly as a parse
failure does. -/
def extractFromSpan (errLoc : String → Option (Nat × Nat)) (now : DateTime)
    (jsonText : String) (logs : List String) : JsVal × List String :=
  let sanitized := sanitizeJsonString jsonText
  match jsonParse sanitized with
  | none => lenientStage errLoc now sanitized (logs ++ ["Standard JSON parsing failed"])
  | some v =>
      match validateAndCleanDataE now v with
      | .ok r => (r, logs ++ ["Successfully parsed with standard JSON.parse"])
      | .error _ =>
          lenientStage errLoc now sanitized
            (logs ++ ["Successfully parsed with standard JSON.parse",
                      "Standard JSON parsing failed"])

/-- extractJsonFromLLMResponse with its diagnostic log stream.  An
empty fenced-block body is falsy (it fails the source line 209
truthiness test), so it falls through to the brace search on the whole
text, as in findCandidate. -/
def extractJsonLogged (errLoc : String → Option (Nat × Nat)) (now : DateTime)
    (text : String) : JsVal × List String :=
  match codeBlockScan text.data with
  | some r =>
      if r = [] then
        match braceBlock text.data with
        | some b =>
            extractFromSpan errLoc now (String.mk b)
              ["Found JSON-like structure with curly braces"]
        | none => (defaultData now, ["No JSON structure found in the AI response"])
      else extractFromSpan errLoc now (String.mk r) ["Found JSON in code block"]
  | none =>
      match braceBlock text.data with
      | some b =>
          extractFromSpan errLoc now (String.mk b)
            ["Found JSON-like structure with curly braces"]
      | none => (defaultData now, ["No JSON structure found in the AI response"])

/-- The whole body of extractJsonFromLLMResponse sits in a try whose
catch returns the default record; the catch is modelled by fault
injection: a faulted run returns the default record, an unfaulted run
the body's value. -/
def extractJsonFromLLMResponseFaulted (fault : Bool)
    (errLoc : String → Option (Nat × Nat)) (now : DateTime) (text : String) : JsVal :=
  if fault then defaultData now else (extractJsonLogged errLoc now text).1

/-- extractJsonFromLLMResponse (source lines 194-276): the value
returned to the caller on a run without internal fault. -/
def extractJsonFromLLMResponse (errLoc : String → Option (Nat × Nat))
    (now : DateTime) (text : String) : JsVal :=
  extractJsonFromLLMResponseFaulted false errLoc now text

/-- One parse strategy as the amended specification words it: the
parse attempt and the cleaning of its value form one unit that
succeeds only when both do. -/
def strategyResult (now : DateTime) (parsed : Option JsVal) : Option JsVal :=
  match parsed with
  | none => none
  | some v =>
      match validateAndCleanDataE now v with
      | .ok r => some r
      | .error _ => none

/-- The parse-strategy chain as the amended specification words it:
candidate span, sanitize, then the strict parse-and-clean strategy,
the lenient parse-and-clean strategy on the control-stripped text, and
regex extraction, the first fully successful strategy winning, with no
diagnostic step. -/
def parseStrategySpec (now : DateTime) (text : String) : JsVal :=
  match findCandidate text with
  | none => defaultData now
  | some c =>
      let s := sanitizeJsonString c
      match strategyResult now (jsonParse s) with
      | some r => r
      | none =>
          match strategyResult now (json5Parse (stripControl s)) with
          | some r => r
          | none => extractDataWithRegex s (defaultData now)

/-! ## parseDate and the scanReceipt record formatting -/

def digitVal (c : Char) : Nat := c.toNat - 48

/-- \d{1,2} immediately followed by the separator (greedy, with the
regex backtracking collapsed: a two-digit run not followed by the
separator cannot shrink to a one-digit match because the second digit
is not the separator). -/
def matchD12Sep (sep : Char) (cs : List Char) : Option (Nat × List Char) :=
  match cs with
  | a :: rest =>
      if isDigitChar a then
        match rest with
        | b :: rest2 =>
            if isDigitChar b then
              match rest2 with
              | s :: rest3 =>
                  if s = sep then some (digitVal a * 10 + digitVal b, rest3) else none
              | [] => none
            else if b = sep then some (digitVal a, rest2) else none
        | [] => none
      else none
  | [] => none

/-- \d{1,2} with nothing required after it (greedy). -/
def matchD12 (cs : List Char) : Option (Nat × List Char) :=
  match cs with
  | a :: rest =>
      if isDigitChar a then
        match rest with
        | b :: rest2 =>
            if isDigitChar b then some (digitVal a * 10 + digitVal b, rest2)
            else some (digitVal a, rest)
        | [] => some (digitVal a, rest)
      else none
  | [] => none

/-- \d{2} exactly (further digits may follow unmatched). -/
def matchD2 (cs : List Char) : Option (Nat × List Char) :=
  match cs with
  | a :: b :: rest =>
      if isDigitChar a ∧ isDigitChar b then some (digitVal a * 10 + digitVal b, rest)
      else none
  | _ => none

/-- \d{4} exactly (further digits may follow unmatched). -/
def matchD4 (cs : List Char) : Option (Nat × List Char) :=
  match cs with
  | a :: b :: c :: d :: rest =>
      if isDigitChar a ∧ isDigitChar b ∧ isDigitChar c ∧ isDigitChar d then
        some (((digitVal a * 10 + digitVal b) * 10 + digitVal c) * 10 + digitVal d, rest)
      else none
  | _ => none

/-- The optional time group (?:\s+(\d{1,2}):(\d{1,2})(?::(\d{1,2}))?)? . -/
def matchTime (cs : List Char) : Nat × Nat × Nat :=
  let ws := cs.takeWhile (fun c => jsWsChar c)
  if ws = [] then (0, 0, 0)
  else
    let r := cs.dropWhile (fun c => jsWsChar c)
    match matchD12Sep ':' r with
    | none => (0, 0, 0)
    | some (h, r2) =>
        match matchD12 r2 with
        | none => (0, 0, 0)
        | some (mi, r3) =>
            match r3 with
            | ':' :: r4 =>
                match matchD12 r4 with
                | some (se, _) => (h, mi, se)
                | none => (h, mi, 0)
            | _ => (h, mi, 0)

/-- Attempt of the first receipt format
(\d{1,2})/(\d{1,2})/(\d{2})(?:time)? at the head, with its conversion
function: year 2000 + yy, zero-based month from the second field, day
from the first. -/
def fmt1TryAt (cs : List Char) : Option DateTime :=
  match matchD12Sep '/' cs with
  | none => none
  | some (d1, r1) =>
      match matchD12Sep '/' r1 with
      | none => none
      | some (d2, r2) =>
          match matchD2 r2 with
          | none => none
          | some (y2, r3) =>
              let t := matchTime r3
              some (mkDate (2000 + (y2 : Int)) ((d2 : Int) - 1) (d1 : Int)
                (t.1 : Int) (t.2.1 : Int) (t.2.2 : Int))

/-- Attempt of the second receipt format (\d{1,2})/(\d{1,2})/(\d{4}):
month from the first field (zero-based), day second, four-digit year. -/
def fmt2TryAt (cs : List Char) : Option DateTime :=
  match matchD12Sep '/' cs with
  | none => none
  | some (m1, r1) =>
      match matchD12Sep '/' r1 with
      | none => none
      | some (d2, r2) =>
          match matchD4 r2 with
          | none => none
          | some (y, _) =>
              some (mkDate (y : Int) ((m1 : Int) - 1) (d2 : Int) 0 0 0)

/-- Attempt of the third receipt format (\d{1,2})-(\d{1,2})-(\d{4}):
day first, month second (zero-based), four-digit year. -/
def fmt3TryAt (cs : List Char) : Option DateTime :=
  match matchD12Sep '-' cs with
  | none => none
  | some (d1, r1) =>
      match matchD12Sep '-' r1 with
      | none => none
      | some (m2, r2) =>
          match matchD4 r2 with
          | none => none
          | some (y, _) =>
              some (mkDate (y : Int) ((m2 : Int) - 1) (d1 : Int) 0 0 0)

/-- Leftmost match of a format attempt over the string. -/
def fmtScan (tryAt : List Char → Option DateTime) : List Char → Option DateTime
  | [] => none
  | c :: rest =>
      match tryAt (c :: rest) with
      | some d => some d
      | none => fmtScan tryAt rest

/-- parseDate (source lines 528-596).  `native` is the platform date
parser (new Date(value) succeeding with a valid instant).  A truthy
non-string value on which the native parse fails would raise a
TypeError at dateStr.match in the source; that outcome is the error
case. -/
def parseDateE (native : JsVal → Option DateTime) (now : DateTime) (v : JsVal) :
    Except Unit DateTime :=
  if ¬ truthy v then .ok now
  else
    match native v with
    | some d => .ok d
    | none =>
        match v with
        | .str s =>
            match fmtScan fmt1TryAt s.data with
            | some d => .ok d
            | none =>
                match fmtScan fmt2TryAt s.data with
                | some d => .ok d
                | none =>
                    match fmtScan fmt3TryAt s.data with
                    | some d => .ok d
                    | none => .ok now
        | _ => .error ()

/-- The receipt data assembled by scanReceipt (source lines 172-179)
from the extracted value; imageUrl and userId come from the
surrounding request. -/
structure ReceiptData where
  vendorName : JsVal
  transactionDate : DateTime
  totalAmount : Option JsRat
  items : List JsVal
  imageUrl : String
  userId : String

/-- imagePath.replace of a leading dot by nothing. -/
def stripLeadingDot (s : String) : String :=
  match s.data with
  | '.' :: rest => String.mk rest
  | _ => s

/-- Lines 172-179 of the source: the Partial-Receipt object literal;
a TypeError escaping parseDate propagates to the catch of scanReceipt
(error case). -/
def formatReceiptData (native : JsVal → Option DateTime) (now : DateTime)
    (imagePath userId : String) (e : JsVal) : Except Unit ReceiptData :=
  match parseDateE native now (getField e "transactionDate") with
  | .error u => .error u
  | .ok d =>
      .ok { vendorName := jsOr (getField e "vendorName") (.str "Unknown Vendor")
            transactionDate := d
            totalAmount := parseFloat (jsToString
              (jsOr (getField e "totalAmount") (.str "0")))
            items := match getField e "items" with
                     | .arr l => l
                     | _ => []
            imageUrl := stripLeadingDot imagePath
            userId := userId }

/-- The record the pipeline hands to persistence for one model
response. -/
def receiptFromResponse (native : JsVal → Option DateTime)
    (errLoc : String → Option (Nat × Nat)) (now : DateTime)
    (imagePath userId : String) (text : String) : Except Unit ReceiptData :=
  formatReceiptData native now imagePath userId
    (extractJsonFromLLMResponse errLoc now text)

/-- The value has this property name (own enumerable key). -/
def hasKey (v : JsVal) (k : String) : Bool :=
  match v with
  | .obj fields => fields.any (fun p => p.1 = k)
  | _ => false

/-- The four fields of the canonical receipt record are present. -/
def hasReceiptKeys (v : JsVal) : Bool :=
  hasKey v "vendorName" && hasKey v "transactionDate" &&
    hasKey v "totalAmount" && hasKey v "items"

/-- The state evolution of the sanitizer's character automaton:
(inString, inEscape) before each character. -/
def autoStep : Bool × Bool → Char → Bool × Bool
  | (inS, true), _ => (inS, false)
  | (inS, false), c =>
      if c = '\\' then (inS, true)
      else if c = '"' then (!inS, false)
      else (inS, false)

/-! ## Theorems -/

/-- C5 (counterexample): sanitizing the well-formed JSON text
containing a bare boolean literal rewrites the literal into a quoted
string, so the sanitized text parses to a different value than the
original text.  Refutes value preservation on all well-formed input. -/
theorem sanitize_valid_json_counterexample :
    jsonParse "\x7b\"a\":true\x7d" = some (.obj [("a", .bool true)]) ∧
    sanitizeJsonString "\x7b\"a\":true\x7d" = "\x7b\"a\": \"true\"\x7d" ∧
    jsonParse "\x7b\"a\": \"true\"\x7d" = some (.obj [("a", .str "true")]) ∧
    JsVal.obj [("a", .bool true)] ≠ JsVal.obj [("a", .str "true")] := by
  refine ⟨rfl, rfl, rfl, ?_⟩
  intro h
  simp at h

/-- C5 (amended): sanitization does not preserve the parsed value of
every well-formed JSON text (bare literals are requoted into strings,
and other repair passes can rewrite valid text); the one exemplar
below is left textually unchanged by sanitization, hence parses to an
equal value. -/
theorem sanitize_valid_json_amended :
    sanitizeJsonString "\x7b\"vendorName\": \"Store\", \"totalAmount\": 12.5\x7d" =
      "\x7b\"vendorName\": \"Store\", \"totalAmount\": 12.5\x7d" ∧
    jsonParse (sanitizeJsonString "\x7b\"vendorName\": \"Store\", \"totalAmount\": 12.5\x7d") =
      jsonParse "\x7b\"vendorName\": \"Store\", \"totalAmount\": 12.5\x7d" := by
  exact ⟨rfl, rfl⟩

/-- C8: on the string 18/05/25 10:30:00, when the native date parse
fails, the D/M/YY pattern resolves day-first with year 2000 + 25,
zero-based month 4 (May), and the time fields from the input. -/
theorem parseDate_ddmmyy (native : JsVal → Option DateTime) (now : DateTime)
    (h : native (.str "18/05/25 10:30:00") = none) :
    parseDateE native now (.str "18/05/25 10:30:00") =
      .ok ⟨2025, 4, 18, 10, 30, 0⟩ := by
  simp only [parseDateE, h]
  rfl

theorem parseDate_ddmmyy_witness :
    (fun (_ : JsVal) => (none : Option DateTime)) (.str "18/05/25 10:30:00") = none ∧
    parseDateE (fun _ => none) ⟨2023, 0, 1, 0, 0, 0⟩ (.str "18/05/25 10:30:00") =
      .ok ⟨2025, 4, 18, 10, 30, 0⟩ :=
  ⟨rfl, parseDate_ddmmyy (fun _ => none) ⟨2023, 0, 1, 0, 0, 0⟩ rfl⟩

/-- C4 (counterexample): on the M/D/YYYY string 13/05/2024 (native
parse failing), the code returns year 2020 = 2000 + 20 via the D/M/YY
pattern, not the four-digit year demanded by the claim (2024, or 2025
after zero-based month normalization of M = 13). -/
theorem date_mdyyyy_counterexample :
    parseDateE (fun _ => none) ⟨2023, 0, 1, 0, 0, 0⟩ (.str "13/05/2024") =
      .ok ⟨2020, 4, 13, 0, 0, 0⟩ ∧
    (2020 : Int) ≠ 2024 ∧ (2020 : Int) ≠ 2025 := by
  exact ⟨rfl, by decide, by decide⟩

/-- C2 (counterexample): the automaton leaves an unescaped double quote
inside a double-quoted string unchanged (it toggles the string state
instead), whereas the claim demands it be replaced by a space. -/
theorem quote_automaton_counterexample :
    String.mk (quoteNeutralize ("\"a\"b\"".data)) = "\"a\"b\"" ∧
    ("\"a\"b\"" : String) ≠ "\"a b\"" := by
  exact ⟨rfl, by decide⟩

theorem quoteNeutralizeGo_cons_true (inS : Bool) (a : Char) (rest : List Char) :
    quoteNeutralizeGo inS true (a :: rest) = a :: quoteNeutralizeGo inS false rest := by
  simp [quoteNeutralizeGo]

theorem quoteNeutralizeGo_nil (inS inE : Bool) : quoteNeutralizeGo inS inE [] = [] := by
  cases inE <;> simp [quoteNeutralizeGo]

theorem quoteNeutralizeGo_length (cs : List Char) :
    ∀ inS inE, (quoteNeutralizeGo inS inE cs).length = cs.length := by
  induction cs with
  | nil => intro inS inE; rw [quoteNeutralizeGo_nil]
  | cons a rest ih =>
      intro inS inE
      cases inE with
      | true => rw [quoteNeutralizeGo_cons_true]; simp [ih]
      | false =>
          simp only [quoteNeutralizeGo]
          split
          · simp [ih]
          · split
            · simp [ih]
            · split
              · simp [ih]
              · simp [ih]

theorem quoteNeutralizeGo_spec (cs : List Char) :
    ∀ (inS inE : Bool) (i : Nat) (c : Char),
    cs[i]? = some c →
    (quoteNeutralizeGo inS inE cs)[i]? =
      some (if (((cs.take i).foldl autoStep (inS, inE)).1 = true ∧
                ((cs.take i).foldl autoStep (inS, inE)).2 = false ∧ c = '\'') then ' '
            else c) := by
  induction cs with
  | nil => intro inS inE i c h; simp at h
  | cons a rest ih =>
      intro inS inE i c h
      cases i with
      | zero =>
          simp only [List.getElem?_cons_zero, Option.some.injEq] at h
          subst h
          simp only [List.take_zero, List.foldl_nil]
          cases inE with
          | true =>
              rw [quoteNeutralizeGo_cons_true]
              simp
          | false =>
              simp only [quoteNeutralizeGo]
              by_cases h1 : a = '\\'
              · subst h1
                simp
              · rw [if_neg h1]
                by_cases h2 : a = '"'
                · subst h2
                  simp
                · rw [if_neg h2]
                  cases hs : inS with
                  | false => simp
                  | true =>
                      by_cases ha : a = '\''
                      · subst ha
                        simp [h2]
                      · simp [h1, h2, ha]
      | succ j =>
          simp only [List.getElem?_cons_succ] at h
          simp only [List.take_succ_cons, List.foldl_cons]
          cases inE with
          | true =>
              rw [quoteNeutralizeGo_cons_true]
              simp only [List.getElem?_cons_succ]
              have hst : autoStep (inS, true) a = (inS, false) := by simp [autoStep]
              simp only [hst]
              exact ih inS false j c h
          | false =>
              simp only [quoteNeutralizeGo]
              by_cases h1 : a = '\\'
              · subst h1
                rw [if_pos rfl]
                simp only [List.getElem?_cons_succ]
                have hst : autoStep (inS, false) '\\' = (inS, true) := by simp [autoStep]
                simp only [hst]
                exact ih inS true j c h
              · rw [if_neg h1]
                by_cases h2 : a = '"'
                · subst h2
                  rw [if_pos rfl]
                  simp only [List.getElem?_cons_succ]
                  have hst : autoStep (inS, false) '"' = (!inS, false) := by simp [autoStep]
                  simp only [hst]
                  exact ih (!inS) false j c h
                · have hst : autoStep (inS, false) a = (inS, false) := by
                    simp [autoStep, h1, h2]
                  rw [if_neg h2]
                  simp only [hst]
                  have htail := ih inS false j c h
                  split
                  · simpa using htail
                  · simpa using htail

/-- C2 (amended): the automaton replaces a character by a space exactly
when it is a single quote encountered inside a double-quoted string
with no pending escape; every other character — in particular an
unescaped double quote, which instead toggles the in-string state — is
emitted unchanged at its position. -/
theorem quote_automaton_characterization (cs : List Char) (i : Nat) (c : Char)
    (h : cs[i]? = some c) :
    (quoteNeutralize cs)[i]? =
      some (if (((cs.take i).foldl autoStep (false, false)).1 = true ∧
                ((cs.take i).foldl autoStep (false, false)).2 = false ∧ c = '\'') then ' '
            else c) :=
  quoteNeutralizeGo_spec cs false false i c h

theorem quote_automaton_characterization_witness :
    (quoteNeutralize ['"', '\'', '"'])[1]? = some ' ' := by
  have h := quote_automaton_characterization ['"', '\'', '"'] 1 '\'' rfl
  simpa using h



/-- C3 (counterexample): on the regex-extraction path, an item whose
per-item strict and lenient parses fail and whose name field is not
found gets the default name "Unknown Item", not the "Unnamed Item"
demanded by the claim. -/
theorem regex_item_default_counterexample :
    extractDataWithRegex "\x7b\"items\": [\"q\" \"r\"]\x7d" (defaultData ⟨2023, 0, 1, 0, 0, 0⟩) =
      .obj [("vendorName", .str "Unknown Vendor"),
            ("transactionDate", .str "2023-01-01T00:00:00.000Z"),
            ("totalAmount", .num (some 0)),
            ("items", .arr [.obj [("name", .str "Unknown Item"),
                                  ("quantity", .num (some 1)),
                                  ("price", .num (some 0))]])] ∧
    ("Unknown Item" : String) ≠ "Unnamed Item" := by
  exact ⟨rfl, by decide⟩

/-- C3 (amended): on the strict- and lenient-parse paths
(validateAndCleanData), for an items entry on which the property
accesses do not throw (the entry is not null or undefined) and whose
name, quantity and price fields are all absent, the defaults are name
"Unnamed Item", quantity 1 and price 0 (a null entry instead makes the
cleaning throw, advancing the strategy chain); on the per-item regex
fallback the numeric defaults are the same but the default name is
"Unknown Item". -/
theorem item_defaults_amended (now : DateTime) (item : JsVal)
    (h1 : getFieldE item "name" = .ok .undefined)
    (h2 : getFieldE item "quantity" = .ok .undefined)
    (h3 : getFieldE item "price" = .ok .undefined) :
    validateAndCleanDataE now (.obj [("items", .arr [item])]) =
      .ok (.obj [("vendorName", .str "Unknown Vendor"),
                 ("transactionDate", .str (isoString now)),
                 ("totalAmount", .num (some 0)),
                 ("items", .arr [.obj [("name", .str "Unnamed Item"),
                                       ("quantity", .num (some 1)),
                                       ("price", .num (some 0))]])]) ∧
    parseItemString ("\"q\" \"r\"".data) =
      .obj [("name", .str "Unknown Item"),
            ("quantity", .num (some 1)),
            ("price", .num (some 0))] := by
  constructor
  · have hclean : cleanItemE item =
        .ok (.obj [("name", .str "Unnamed Item"),
                   ("quantity", .num (some 1)),
                   ("price", .num (some 0))]) := by
      unfold cleanItemE
      rw [h1, h2, h3]
      rfl
    have hitems : cleanItems [item] =
        .ok [.obj [("name", .str "Unnamed Item"),
                   ("quantity", .num (some 1)),
                   ("price", .num (some 0))]] := by
      unfold cleanItems
      rw [hclean]
      rfl
    have hio : itemsOf (.obj [("items", .arr [item])]) =
        .ok [.obj [("name", .str "Unnamed Item"),
                   ("quantity", .num (some 1)),
                   ("price", .num (some 0))]] := by
      have h0 : itemsOf (.obj [("items", .arr [item])]) = cleanItems [item] := rfl
      rw [h0, hitems]
    unfold validateAndCleanDataE
    rw [if_pos (show isObjectLike (JsVal.obj [("items", JsVal.arr [item])]) = true from rfl),
      hio,
      show getField (JsVal.obj [("items", JsVal.arr [item])]) "vendorName" =
        JsVal.undefined from rfl,
      show getField (JsVal.obj [("items", JsVal.arr [item])]) "transactionDate" =
        JsVal.undefined from rfl,
      show getField (JsVal.obj [("items", JsVal.arr [item])]) "totalAmount" =
        JsVal.undefined from rfl]
    rfl
  · rfl

theorem item_defaults_amended_witness :
    getFieldE (JsVal.obj []) "name" = .ok .undefined ∧
    validateAndCleanDataE ⟨2023, 0, 1, 0, 0, 0⟩ (.obj [("items", .arr [.obj []])]) =
      .ok (.obj [("vendorName", .str "Unknown Vendor"),
                 ("transactionDate", .str (isoString ⟨2023, 0, 1, 0, 0, 0⟩)),
                 ("totalAmount", .num (some 0)),
                 ("items", .arr [.obj [("name", .str "Unnamed Item"),
                                       ("quantity", .num (some 1)),
                                       ("price", .num (some 0))]])]) :=
  ⟨rfl, (item_defaults_amended ⟨2023, 0, 1, 0, 0, 0⟩ (.obj []) rfl rfl rfl).1⟩

theorem matchD2_isSome_of_matchD4 (cs : List Char)
    (h : (matchD4 cs).isSome = true) : (matchD2 cs).isSome = true := by
  rcases cs with _ | ⟨a, _ | ⟨b, _ | ⟨c, _ | ⟨d, t⟩⟩⟩⟩
  · simp [matchD4] at h
  · simp [matchD4] at h
  · simp [matchD4] at h
  · simp [matchD4] at h
  · simp only [matchD4] at h
    split at h
    · rename_i hd
      simp [matchD2, hd.1, hd.2.1]
    · simp at h

theorem fmt1TryAt_isSome_of_fmt2 (cs : List Char)
    (h : (fmt2TryAt cs).isSome = true) : (fmt1TryAt cs).isSome = true := by
  unfold fmt2TryAt at h
  unfold fmt1TryAt
  cases e1 : matchD12Sep '/' cs with
  | none => simp [e1] at h
  | some p1 =>
      obtain ⟨m1, r1⟩ := p1
      simp only [e1] at h
      cases e2 : matchD12Sep '/' r1 with
      | none => simp [e2] at h
      | some p2 =>
          obtain ⟨m2, r2⟩ := p2
          simp only [e2] at h
          cases e3 : matchD4 r2 with
          | none => simp [e3] at h
          | some p3 =>
              have h2 := matchD2_isSome_of_matchD4 r2 (by simp [e3])
              cases e4 : matchD2 r2 with
              | none => simp [e4] at h2
              | some p4 => simp [e1, e2, e4]

theorem fmtScan_fmt1_of_fmt2 (cs : List Char)
    (h : (fmtScan fmt2TryAt cs).isSome = true) :
    (fmtScan fmt1TryAt cs).isSome = true := by
  induction cs with
  | nil => simp [fmtScan] at h
  | cons c rest ih =>
      unfold fmtScan at h ⊢
      cases e : fmt1TryAt (c :: rest) with
      | some d => simp [e]
      | none =>
          simp only [e]
          cases e2 : fmt2TryAt (c :: rest) with
          | some d2 =>
              have h1 := fmt1TryAt_isSome_of_fmt2 (c :: rest) (by simp [e2])
              rw [e] at h1
              simp at h1
          | none =>
              simp only [e2] at h
              exact ih h

/-- C4 (amended): the M/D/YYYY pattern is dead code: wherever it would
match, the D/M/YY pattern (whose two-digit year matches the first two
digits of YYYY) already matches, and parseDate returns the first
pattern's result — day-first fields with year 2000 + the first two
digits of YYYY. -/
theorem date_mdyyyy_amended :
    (∀ cs : List Char, (fmtScan fmt2TryAt cs).isSome = true →
        (fmtScan fmt1TryAt cs).isSome = true) ∧
    (∀ (native : JsVal → Option DateTime) (now : DateTime) (s : String) (d : DateTime),
        native (.str s) = none → fmtScan fmt1TryAt s.data = some d →
        parseDateE native now (.str s) = .ok d) := by
  constructor
  · exact fun cs h => fmtScan_fmt1_of_fmt2 cs h
  · intro native now s d hn hf
    have hs : s ≠ "" := by
      intro he
      subst he
      simp [fmtScan] at hf
    unfold parseDateE
    rw [if_neg (by simp [truthy, hs])]
    simp only [hn, hf]

theorem date_mdyyyy_amended_witness :
    (fmtScan fmt1TryAt ("1/2/3456".data)).isSome = true ∧
    parseDateE (fun _ => none) ⟨2023, 0, 1, 0, 0, 0⟩ (.str "13/05/2024") =
      .ok ⟨2020, 4, 13, 0, 0, 0⟩ :=
  ⟨date_mdyyyy_amended.1 ("1/2/3456".data) rfl,
   date_mdyyyy_amended.2 (fun _ => none) ⟨2023, 0, 1, 0, 0, 0⟩ "13/05/2024"
     ⟨2020, 4, 13, 0, 0, 0⟩ rfl rfl⟩

/-- C9: an internal exception at any of the sanitizer's stages is
absorbed by the catch handler, which returns exactly the literal
fallback record text. -/
theorem sanitize_catch_fallback (s : String) (k : Nat) (hk : k < 7) :
    sanitizeJsonStringFaulted (some k) s =
      "\x7b\"vendorName\":\"Unknown Vendor\",\"transactionDate\":\"2023-01-01\",\"totalAmount\":0,\"items\":[]\x7d" := by
  interval_cases k <;> rfl

theorem sanitize_catch_fallback_witness :
    sanitizeJsonStringFaulted (some 0) "x" =
      "\x7b\"vendorName\":\"Unknown Vendor\",\"transactionDate\":\"2023-01-01\",\"totalAmount\":0,\"items\":[]\x7d" :=
  sanitize_catch_fallback "x" 0 (by norm_num)

theorem envelopeFix_head (cs : List Char) : (envelopeFix cs).head? = some '\x7b' := by
  unfold envelopeFix
  have h1 : ∀ cs1 : List Char, cs1.head? = some '\x7b' →
      (match cs1.getLast? with
       | some '\x7d' => cs1
       | _ => cs1 ++ ['\x7d']).head? = some '\x7b' := by
    intro cs1 h
    split
    · exact h
    · cases cs1 with
      | nil => simp at h
      | cons a t => simpa using h
  apply h1
  split
  · rfl
  · rfl

theorem envelopeFix_getLast (cs : List Char) :
    (envelopeFix cs).getLast? = some '\x7d' := by
  unfold envelopeFix
  have h1 : ∀ cs1 : List Char,
      (match cs1.getLast? with
       | some '\x7d' => cs1
       | _ => cs1 ++ ['\x7d']).getLast? = some '\x7d' := by
    intro cs1
    split
    · assumption
    · exact List.getLast?_concat _
  apply h1

theorem collapseDEQ_head (cs : List Char) : (collapseDEQ cs).head? = cs.head? := by
  unfold collapseDEQ
  split <;> rfl

theorem getLast?_cons_of_ne_nil (x : Char) (l : List Char) (h : l ≠ []) :
    (x :: l).getLast? = l.getLast? := by
  cases l with
  | nil => exact absurd rfl h
  | cons a t => exact List.getLast?_cons_cons

theorem collapseDEQ_ne_nil (a : Char) (t : List Char) : collapseDEQ (a :: t) ≠ [] := by
  rw [collapseDEQ.eq_def]
  split
  · simp
  · simp
  · rename_i heq
    exact absurd heq (by simp)

theorem collapseDEQ_getLast (cs : List Char) :
    ∀ c, c ≠ '"' → cs.getLast? = some c → (collapseDEQ cs).getLast? = some c := by
  induction cs using collapseDEQ.induct with
  | case1 rest ih =>
      intro c hc h
      cases hr : rest with
      | nil =>
          subst hr
          simp at h
          exact absurd h.symm hc
      | cons a t =>
          subst hr
          have hlast : (a :: t).getLast? = some c := by
            rw [List.getLast?_cons_cons, List.getLast?_cons_cons] at h
            exact h
          have ihr := ih c hc hlast
          show (('\\' : Char) :: '"' :: collapseDEQ (a :: t)).getLast? = some c
          rw [List.getLast?_cons_cons,
            getLast?_cons_of_ne_nil _ _ (collapseDEQ_ne_nil a t)]
          exact ihr
  | case2 c rest hne ih =>
      intro c' hc h
      rw [collapseDEQ.eq_def]
      split
      · rename_i rest1 heq
        exact absurd heq (by
          intro he
          injection he with he1 he2
          exact hne rest1 he1 he2)
      · rename_i c2 rest2 hrow heq
        injection heq with he1 he2
        subst he1
        subst he2
        cases hr : rest with
        | nil =>
            subst hr
            simp at h
            subst h
            simp [collapseDEQ]
        | cons a t =>
            subst hr
            have hlast : (a :: t).getLast? = some c' := by
              rw [List.getLast?_cons_cons] at h
              exact h
            rw [getLast?_cons_of_ne_nil _ _ (collapseDEQ_ne_nil a t)]
            exact ih c' hc hlast
      · rename_i heq
        exact absurd heq (by simp)
  | case3 =>
      intro c hc h
      simp at h

theorem quoteNeutralize_head (cs : List Char) (c : Char) (hc : c ≠ '\'')
    (h : cs.head? = some c) : (quoteNeutralize cs).head? = some c := by
  have h0 : cs[0]? = some c := by
    rw [List.head?_eq_getElem?] at h
    exact h
  have hsp := quoteNeutralizeGo_spec cs false false 0 c h0
  rw [List.head?_eq_getElem?]
  show (quoteNeutralizeGo false false cs)[0]? = some c
  rw [hsp]
  simp [hc]

theorem quoteNeutralize_getLast (cs : List Char) (c : Char) (hc : c ≠ '\'')
    (h : cs.getLast? = some c) : (quoteNeutralize cs).getLast? = some c := by
  have h0 : cs[cs.length - 1]? = some c := by
    rw [List.getLast?_eq_getElem?] at h
    exact h
  have hsp := quoteNeutralizeGo_spec cs false false (cs.length - 1) c h0
  rw [List.getLast?_eq_getElem?]
  show (quoteNeutralizeGo false false cs)[(quoteNeutralizeGo false false cs).length - 1]? = some c
  rw [quoteNeutralizeGo_length cs false false, hsp]
  simp [hc]

theorem onData_data (f : List Char → List Char) (t : String) :
    (onData f t).data = f t.data := rfl

theorem quoteCleanup_head_getLast (cs : List Char)
    (h1 : cs.head? = some '\x7b') (h2 : cs.getLast? = some '\x7d') :
    (quoteCleanup cs).head? = some '\x7b' ∧ (quoteCleanup cs).getLast? = some '\x7d' := by
  have ha1 : (collapseDEQ cs).head? = some '\x7b' := by
    rw [collapseDEQ_head]
    exact h1
  have ha2 : (collapseDEQ cs).getLast? = some '\x7d' :=
    collapseDEQ_getLast cs _ (by decide) h2
  have hb1 := quoteNeutralize_head _ _ (by decide) ha1
  have hb2 := quoteNeutralize_getLast _ _ (by decide) ha2
  have hne : quoteNeutralize (collapseDEQ cs) ≠ [] := by
    intro he
    rw [he] at hb1
    simp at hb1
  simp only [quoteCleanup]
  rw [if_neg hne]
  exact ⟨hb1, hb2⟩

theorem sanitizeRun_cases (fault : Option Nat) (s : String) :
    sanitizeRun fault s = .error () ∨
    sanitizeRun fault s =
      .ok (onData quoteCleanup (onData envelopeFix
        (onData syntaxFixes (onData escapeProtect (jsTrim s))))) := by
  cases fault with
  | none => right; rfl
  | some k =>
      by_cases hk : k < 7
      · left
        interval_cases k <;> rfl
      · right
        have h0 : ¬(some k = some 0) := by simp; omega
        have h1 : ¬(some k = some 1) := by simp; omega
        have h2 : ¬(some k = some 2) := by simp; omega
        have h3 : ¬(some k = some 3) := by simp; omega
        have h4 : ¬(some k = some 4) := by simp; omega
        have h5 : ¬(some k = some 5) := by simp; omega
        have h6 : ¬(some k = some 6) := by simp; omega
        simp only [sanitizeRun, sanitizeStepList, sanitizeRunGo,
          if_neg h0, if_neg h1, if_neg h2, if_neg h3, if_neg h4, if_neg h5, if_neg h6]

/-- C10: for every input (and also under an injected internal fault,
i.e. on the fallback path) the sanitizer's output text begins with an
opening brace and ends with a closing brace: the envelope-repair step
establishes it, and the double-escape collapse and the quote automaton
preserve it. -/
theorem sanitize_envelope_brackets (fault : Option Nat) (s : String) :
    (sanitizeJsonStringFaulted fault s).data.head? = some '\x7b' ∧
    (sanitizeJsonStringFaulted fault s).data.getLast? = some '\x7d' := by
  rcases sanitizeRun_cases fault s with h | h
  · unfold sanitizeJsonStringFaulted
    rw [h]
    exact ⟨rfl, rfl⟩
  · unfold sanitizeJsonStringFaulted
    rw [h]
    simp only [onData_data]
    exact quoteCleanup_head_getLast
      (envelopeFix (syntaxFixes (escapeProtect (jsTrim s).data)))
      (envelopeFix_head _) (envelopeFix_getLast _)

theorem span_fst (errLoc : String → Option (Nat × Nat)) (now : DateTime)
    (jsonText : String) (logs : List String) :
    (extractFromSpan errLoc now jsonText logs).1 =
      (match strategyResult now (jsonParse (sanitizeJsonString jsonText)) with
       | some r => r
       | none =>
           match strategyResult now
               (json5Parse (stripControl (sanitizeJsonString jsonText))) with
           | some r => r
           | none => extractDataWithRegex (sanitizeJsonString jsonText) (defaultData now)) := by
  unfold extractFromSpan lenientStage regexStage strategyResult
  dsimp only
  repeat' (first | split | rfl)
  all_goals simp_all

/-- The extraction pipeline computes exactly the spec-side strategy
chain; the diagnostic computation influences only the log stream. -/
theorem extractJson_eq_chain (errLoc : String → Option (Nat × Nat)) (now : DateTime)
    (text : String) :
    extractJsonFromLLMResponse errLoc now text = parseStrategySpec now text := by
  have hbody : extractJsonFromLLMResponse errLoc now text =
      (extractJsonLogged errLoc now text).1 := rfl
  rw [hbody]
  unfold extractJsonLogged parseStrategySpec findCandidate
  cases hcb : codeBlockScan text.data with
  | some r =>
      dsimp only
      by_cases hr : r = []
      · rw [if_pos hr, if_pos hr]
        cases hbb : braceBlock text.data with
        | some b =>
            dsimp only [Option.map]
            rw [span_fst]
        | none => rfl
      · rw [if_neg hr, if_neg hr]
        dsimp only
        rw [span_fst]
  | none =>
      cases hbb : braceBlock text.data with
      | some b =>
          dsimp only [Option.map]
          rw [span_fst]
      | none => rfl

theorem vcd_ok_shape (now : DateTime) (data v : JsVal)
    (h : validateAndCleanDataE now data = .ok v) :
    hasReceiptKeys v = true ∧ ∃ j, getField v "totalAmount" = .num j := by
  unfold validateAndCleanDataE at h
  split at h
  · split at h
    · simp at h
    · injection h with h2
      subst h2
      exact ⟨rfl, ⟨_, rfl⟩⟩
  · injection h with h2
    subst h2
    exact ⟨rfl, ⟨some 0, rfl⟩⟩

theorem strategyResult_shape (now : DateTime) (p : Option JsVal) (r : JsVal)
    (h : strategyResult now p = some r) :
    hasReceiptKeys r = true ∧ ∃ j, getField r "totalAmount" = .num j := by
  unfold strategyResult at h
  cases p with
  | none => simp at h
  | some v =>
      dsimp only at h
      cases hw : validateAndCleanDataE now v with
      | error e =>
          rw [hw] at h
          simp at h
      | ok w =>
          rw [hw] at h
          simp only [Option.some.injEq] at h
          subst h
          exact vcd_ok_shape now v w hw

theorem hasReceiptKeys_edr (text : String) (now : DateTime) :
    hasReceiptKeys (extractDataWithRegex text (defaultData now)) = true := rfl

theorem edr_totalAmount (text : String) (now : DateTime) :
    ∃ j, getField (extractDataWithRegex text (defaultData now)) "totalAmount" = .num j := by
  have hr : getField (extractDataWithRegex text (defaultData now)) "totalAmount" =
      (match numFieldMatch "totalAmount" text.data with
       | some t2 => .num (parseFloat t2)
       | none => getField (defaultData now) "totalAmount") := rfl
  rw [hr]
  cases numFieldMatch "totalAmount" text.data with
  | some t2 => exact ⟨_, rfl⟩
  | none => exact ⟨some 0, rfl⟩

theorem chain_shape (errLoc : String → Option (Nat × Nat)) (now : DateTime)
    (text : String) :
    hasReceiptKeys (extractJsonFromLLMResponse errLoc now text) = true ∧
    ∃ j, getField (extractJsonFromLLMResponse errLoc now text) "totalAmount" = .num j := by
  rw [extractJson_eq_chain]
  unfold parseStrategySpec
  cases findCandidate text with
  | none => exact ⟨rfl, ⟨some 0, rfl⟩⟩
  | some c =>
      dsimp only
      cases h1 : strategyResult now (jsonParse (sanitizeJsonString c)) with
      | some r => exact strategyResult_shape now _ r h1
      | none =>
          cases h2 : strategyResult now (json5Parse (stripControl (sanitizeJsonString c))) with
          | some r => exact strategyResult_shape now _ r h2
          | none => exact ⟨hasReceiptKeys_edr _ now, edr_totalAmount _ now⟩

/-- C1: extractJsonFromLLMResponse is total: for every input it
returns an object carrying the four canonical fields vendorName,
transactionDate, totalAmount and items; when no candidate JSON
structure is found it returns the default record, and a run whose
body raises an internal fault returns the same default record from
the outer catch. -/
theorem extractJson_total_with_default :
    ∀ (errLoc : String → Option (Nat × Nat)) (now : DateTime) (text : String),
      hasReceiptKeys (extractJsonFromLLMResponse errLoc now text) = true ∧
      (findCandidate text = none →
        extractJsonFromLLMResponse errLoc now text = defaultData now) ∧
      extractJsonFromLLMResponseFaulted true errLoc now text = defaultData now := by
  intro errLoc now text
  refine ⟨(chain_shape errLoc now text).1, ?_, rfl⟩
  intro h
  rw [extractJson_eq_chain]
  unfold parseStrategySpec
  rw [h]

theorem extractJson_total_with_default_witness :
    findCandidate "hello" = none ∧
    extractJsonFromLLMResponse (fun _ => none) ⟨2023, 0, 1, 0, 0, 0⟩ "hello" =
      defaultData ⟨2023, 0, 1, 0, 0, 0⟩ :=
  ⟨rfl, ((extractJson_total_with_default (fun _ => none) ⟨2023, 0, 1, 0, 0, 0⟩
    "hello").2).1 rfl⟩

/-- C6 (counterexample): on an input whose sanitized candidate parses
strictly to an object with a single null items entry, the strict parse
succeeds, yet the pipeline does not return that strategy's record:
cleaning the parsed value raises (property access on the null item),
the exception advances the chain past the lenient parse (which raises
the same way) to the regex fallback, whose per-item record — name
"Unknown Item" — is returned.  Refutes "the first parse success
short-circuits". -/
theorem parse_chain_counterexample :
    jsonParse (sanitizeJsonString "\x7b\"items\": [null]\x7d") =
      some (.obj [("items", .arr [.null])]) ∧
    validateAndCleanDataE ⟨2023, 0, 1, 0, 0, 0⟩ (.obj [("items", .arr [.null])]) =
      .error () ∧
    extractJsonFromLLMResponse (fun _ => none) ⟨2023, 0, 1, 0, 0, 0⟩
        "\x7b\"items\": [null]\x7d" =
      .obj [("vendorName", .str "Unknown Vendor"),
            ("transactionDate", .str (isoString ⟨2023, 0, 1, 0, 0, 0⟩)),
            ("totalAmount", .num (some 0)),
            ("items", .arr [.obj [("name", .str "Unknown Item"),
                                  ("quantity", .num (some 1)),
                                  ("price", .num (some 0))]])] :=
  ⟨rfl, rfl, rfl⟩

/-- C6 (amended): the pipeline attempts strict parse-and-clean, then
lenient parse-and-clean on the control-stripped text, then regex
extraction, in that order, the first fully successful strategy
winning: a cleaning exception advances the chain exactly as a parse
failure does, so a parse success alone does not short-circuit; the
line/column diagnostic computed after a lenient failure never changes
the returned value (the theorem quantifies over every errLoc
oracle). -/
theorem parse_chain_order_amended :
    ∀ (errLoc : String → Option (Nat × Nat)) (now : DateTime) (text : String),
      extractJsonFromLLMResponse errLoc now text = parseStrategySpec now text :=
  fun errLoc now text => extractJson_eq_chain errLoc now text

theorem digit_not_special (d : Char) (hd : isDigitChar d = true) :
    jsWsChar d = false ∧ d ≠ '-' ∧ d ≠ '+' := by
  refine ⟨?_, ?_, ?_⟩
  · by_contra hw
    have hw' : jsWsChar d = true := by
      revert hw
      cases jsWsChar d <;> simp
    simp only [jsWsChar, Bool.or_eq_true, decide_eq_true_eq] at hw'
    rcases hw' with ((((rfl | rfl) | rfl) | rfl) | rfl) | rfl <;>
      exact absurd hd (by decide)
  · intro h
    subst h
    exact absurd hd (by decide)
  · intro h
    subst h
    exact absurd hd (by decide)

theorem isDigitChar_ofNat_mod (m : Nat) :
    isDigitChar (Char.ofNat (48 + m % 10)) = true := by
  have h : m % 10 < 10 := Nat.mod_lt _ (by norm_num)
  set r := m % 10 with hr
  interval_cases r <;> decide

theorem natDigits_go_spec (fuel m : Nat) (acc : List Char) :
    m ≤ fuel → (∀ c ∈ acc, isDigitChar c = true) →
    natDigits.go fuel m acc ≠ [] ∧
      ∀ c ∈ natDigits.go fuel m acc, isDigitChar c = true := by
  induction fuel, m, acc using natDigits.go.induct with
  | case1 t =>
      intro _ _
      constructor
      · simp [natDigits.go]
      · intro c hc
        simp [natDigits.go] at hc
        subst hc
        decide
  | case2 t acc hne =>
      intro _ hacc
      constructor
      · simp [natDigits.go, hne]
      · intro c hc
        simp only [natDigits.go, if_neg hne] at hc
        exact hacc c hc
  | case3 x acc hx =>
      intro hle _
      exact absurd (Nat.le_zero.mp hle) (fun h => hx h)
  | case4 fuel m acc hm ih =>
      intro hle hacc
      have hstep : natDigits.go (fuel + 1) m acc =
          natDigits.go fuel (m / 10) (Char.ofNat (48 + m % 10) :: acc) := by
        cases m with
        | zero => exact absurd rfl (fun h => hm h)
        | succ k => rfl
      rw [hstep]
      have h1 : m / 10 < m :=
        Nat.div_lt_self (Nat.pos_of_ne_zero (fun h => hm h)) (by norm_num)
      have hdiv : m / 10 ≤ fuel := Nat.lt_succ_iff.mp (Nat.lt_of_lt_of_le h1 hle)
      exact ih hdiv (by
        intro c hc
        rcases List.mem_cons.mp hc with hc2 | hc2
        · subst hc2
          exact isDigitChar_ofNat_mod m
        · exact hacc c hc2)

theorem natDigits_head_digit (n : Nat) :
    ∃ d t, natDigits n = d :: t ∧ isDigitChar d = true := by
  have h := natDigits_go_spec n n [] (le_refl n) (by intro c hc; simp at hc)
  unfold natDigits
  rcases he : natDigits.go n n [] with _ | ⟨d, t⟩
  · exact absurd he h.1
  · refine ⟨d, t, rfl, ?_⟩
    have := h.2 d
    rw [he] at this
    exact this (by simp)

theorem parseFloat_isSome_of_data (s : String) (d : Char) (t : List Char)
    (hd : isDigitChar d = true)
    (h : s.data.dropWhile (fun c => jsWsChar c) = d :: t ∨
         s.data.dropWhile (fun c => jsWsChar c) = ('-') :: d :: t) :
    (parseFloat s).isSome = true := by
  obtain ⟨hws, hneg, hplus⟩ := digit_not_special d hd
  unfold parseFloat
  dsimp only
  rcases h with h | h <;> rw [h] <;> simp only [List.headD_cons]
  · have hc2 : ¬(d = '-' ∨ d = '+') := by
      rintro (h1 | h1)
      · exact hneg h1
      · exact hplus h1
    simp only [if_neg hneg, if_neg hc2]
    simp [List.takeWhile_cons, hd]
  · simp [List.takeWhile_cons, hd]

theorem parseFloat_numToString_isSome (q : JsRat) :
    (parseFloat (numToString q)).isSome = true := by
  obtain ⟨d, t, hnd, hd⟩ := natDigits_head_digit (q.num.natAbs / q.den)
  obtain ⟨hws, _, _⟩ := digit_not_special d hd
  apply parseFloat_isSome_of_data _ d
    (t ++ (if numToString.fracGo 30 (q.num.natAbs % q.den) q.den = [] then ("" : String)
           else "." ++ String.mk (numToString.fracGo 30 (q.num.natAbs % q.den) q.den)).data)
    hd
  unfold numToString
  dsimp only
  by_cases hq : q.num < 0
  · right
    rw [if_pos hq]
    simp only [String.data_append, hnd]
    have hmws : jsWsChar '-' = false := by decide
    simp [hmws, List.dropWhile_cons]
  · left
    rw [if_neg hq]
    simp only [String.data_append, hnd]
    simp [hws, List.dropWhile_cons]

/-- C7 (counterexample): a negative item price passes through the
pipeline unchanged — the produced record carries price -3, which is not
non-negative; the raw non-numeric totalAmount "abc" does end up as 0
(NaN from the first coercion is falsy at the second). -/
theorem pipeline_invariant_counterexample :
    receiptFromResponse (fun _ => none) (fun _ => none) ⟨2023, 0, 1, 0, 0, 0⟩
        "./img.jpg" "u"
        "\x7b\"totalAmount\": \"abc\", \"items\": [\x7b\"price\": -3\x7d]\x7d" =
      .ok { vendorName := .str "Unknown Vendor"
            transactionDate := ⟨2023, 0, 1, 0, 0, 0⟩
            totalAmount := some 0
            items := [.obj [("name", .str "Unnamed Item"),
                            ("quantity", .num (some 1)),
                            ("price", .num (some (-3)))]]
            imageUrl := "/img.jpg"
            userId := "u" } ∧
    ¬ ((0 : JsRat) ≤ -3) := by
  exact ⟨rfl, by decide⟩

/-- C7 (amended): the pipeline's totalAmount is always an actual number
(never NaN): the formatting step re-coerces, and a NaN produced by
validateAndCleanData is falsy, so it is replaced by the string "0"
before the final coercion.  Item quantities and prices, by contrast,
are passed through and may be NaN or negative (see the
counterexample). -/
theorem pipeline_totalAmount_amended :
    ∀ (native : JsVal → Option DateTime) (errLoc : String → Option (Nat × Nat))
      (now : DateTime) (imagePath userId text : String) (r : ReceiptData),
      receiptFromResponse native errLoc now imagePath userId text = Except.ok r →
      r.totalAmount.isSome = true := by
  intro native errLoc now imagePath userId text r h
  obtain ⟨j, hj⟩ := (chain_shape errLoc now text).2
  unfold receiptFromResponse formatReceiptData at h
  cases hd : parseDateE native now
      (getField (extractJsonFromLLMResponse errLoc now text) "transactionDate") with
  | error u =>
      rw [hd] at h
      exact absurd h (by simp)
  | ok dt =>
      rw [hd] at h
      injection h with h2
      subst h2
      dsimp only
      rw [hj]
      cases j with
      | none => decide
      | some q =>
          by_cases h0 : q.num = 0
          · simp only [jsOr, truthy, h0]
            rw [if_neg (by decide)]
            decide
          · simp only [jsOr, truthy]
            rw [if_pos (by simp [h0])]
            exact parseFloat_numToString_isSome q

theorem pipeline_totalAmount_amended_witness :
    receiptFromResponse (fun _ => none) (fun _ => none) ⟨2023, 0, 1, 0, 0, 0⟩
        "./i.jpg" "u" "\x7b\x7d" =
      Except.ok { vendorName := .str "Unknown Vendor"
                  transactionDate := ⟨2023, 0, 1, 0, 0, 0⟩
                  totalAmount := some 0
                  items := []
                  imageUrl := "/i.jpg"
                  userId := "u" } ∧
    (Option.isSome (ReceiptData.totalAmount
      { vendorName := .str "Unknown Vendor"
        transactionDate := ⟨2023, 0, 1, 0, 0, 0⟩
        totalAmount := some 0
        items := []
        imageUrl := "/i.jpg"
        userId := "u" })) = true :=
  ⟨rfl, pipeline_totalAmount_amended (fun _ => none) (fun _ => none)
    ⟨2023, 0, 1, 0, 0, 0⟩ "./i.jpg" "u" "\x7b\x7d" _ rfl⟩
